import Mathlib

/-!
# RightPanel (leetcompete-client, `src/components/problemPanel/rightPanel.jsx`)

A shallow embedding of the logic of the `RightPanel` React component: the
parsing of the model's text reply (`parseGeminiResponse`), the language
selector, the loading of saved code, the resize handler and the two
asynchronous handlers `handleRunCode` and `handleSubmit`.

Conventions of the embedding.

* JavaScript values that come out of `JSON.parse` (and the objects the
  component stores in `output`) are values of `JSVal`.  Numbers are held as
  exact rationals: the IEEE rounding of `Number` is not modelled.
* JavaScript strings are Lean strings, handled through their list of
  characters.
* A thrown `Error` is a value of `JSError`; a function that may throw returns
  `Except JSError _`.  What the model client throws is a value of `Thrown`: an
  `Error` or any other value.
* React state is the record `PanelState`; a handler is a function from the
  state in which it starts to the state in which it ends.
-/

namespace RightPanel

/-! ## JavaScript values -/

/-- JavaScript values: the JSON data model together with `undefined`. -/
inductive JSVal where
  | undefined : JSVal
  | null : JSVal
  | bool (b : Bool) : JSVal
  | num (q : ℚ) : JSVal
  | str (s : String) : JSVal
  | arr (items : List JSVal) : JSVal
  | obj (fields : List (String × JSVal)) : JSVal

/-- An `Error` object, as far as this component looks at it: its `message`. -/
structure JSError where
  message : String

/-- JavaScript `ToBoolean`. -/
def truthy : JSVal → Bool
  | .undefined => false
  | .null => false
  | .bool b => b
  | .num q => decide (q ≠ 0)
  | .str s => decide (s ≠ "")
  | .arr _ => true
  | .obj _ => true

/-- The operator `a || b`. -/
def jsOr (a b : JSVal) : JSVal := if truthy a then a else b

/-- The operator `a || b` on strings: the empty string is the only falsy one. -/
def strOr (a b : String) : String := if a ≠ "" then a else b

/-- Own-property lookup in the field list of an object. -/
def lookupField (k : String) : List (String × JSVal) → JSVal
  | [] => .undefined
  | (k', v) :: rest => if k' = k then v else lookupField k rest

/-- Definition or redefinition of a property: an existing key keeps its place. -/
def setField (k : String) (v : JSVal) : List (String × JSVal) → List (String × JSVal)
  | [] => [(k, v)]
  | (k', v') :: rest => if k' = k then (k, v) :: rest else (k', v') :: setField k v rest

/-- The text of the `TypeError` raised when a property of `undefined` or `null`
is read (V8 wording). -/
def typeErrorMessage (base k : String) : String :=
  "Cannot read properties of " ++ base ++ " (reading '" ++ k ++ "')"

/-- Property read `v.k`.  Reading from `undefined` or `null` throws a
`TypeError`; the names this component reads (`success`, `allPassed`, …) are
not built-in properties of strings, numbers, booleans or arrays, so on those
the read gives `undefined`. -/
def getProp (v : JSVal) (k : String) : Except JSError JSVal :=
  match v with
  | .undefined => .error ⟨typeErrorMessage "undefined" k⟩
  | .null => .error ⟨typeErrorMessage "null" k⟩
  | .obj fields => .ok (lookupField k fields)
  | _ => .ok .undefined

/-! ## Strings -/

/-- The characters matched by `\s` in a regular expression and removed by
`String.prototype.trim`: ECMAScript WhiteSpace and LineTerminator. -/
def isJSWhite (c : Char) : Bool :=
  let n := c.toNat
  n = 9 || n = 10 || n = 11 || n = 12 || n = 13 || n = 32 || n = 160 || n = 5760
    || (8192 ≤ n && n ≤ 8202) || n = 8232 || n = 8233 || n = 8239 || n = 8287
    || n = 12288 || n = 65279

/-- `String.prototype.trim` on a list of characters. -/
def jsTrim (l : List Char) : List Char :=
  ((l.dropWhile isJSWhite).reverse.dropWhile isJSWhite).reverse

/-- The backtick character. -/
def backtick : Char := Char.ofNat 96

/-- The fence that closes a markdown code block. -/
def fence : List Char := [backtick, backtick, backtick]

/-- The fence that opens a markdown `json` code block. -/
def fenceJson : List Char := fence ++ ['j', 's', 'o', 'n']

/-- A match of the first alternative, `^<fence>json\s*`, of the regular
expression.  It can only match at the start of the text, and `\s*` is greedy:
the result is the text after the match when there is one. -/
def stripOpen (l : List Char) : Option (List Char) :=
  if fenceJson.isPrefixOf l then some ((l.drop fenceJson.length).dropWhile isJSWhite) else none

/-- Whether the second alternative, `<fence>\s*$`, matches at the start of `l`:
a fence followed by white space only, up to the end of the text. -/
def matchClose (l : List Char) : Bool :=
  fence.isPrefixOf l && (l.drop fence.length).all isJSWhite

/-- The scan for the second alternative from the current position on: the
characters before the leftmost match are kept, the match (which reaches the end
of the text) is removed. -/
def scanClose : List Char → List Char
  | [] => []
  | c :: cs => if matchClose (c :: cs) then [] else c :: scanClose cs

/-- The call `rawText.replace(/^<fence>json\s*|<fence>\s*$/g, "")`: at the start
of the text the first alternative is tried first; after its match, and at every
later position, only the second alternative can match. -/
def stripFences (l : List Char) : List Char :=
  match stripOpen l with
  | some rest => scanClose rest
  | none => scanClose l

/-- The text handed to `JSON.parse`: fences removed, then trimmed. -/
def cleanedText (rawText : String) : String :=
  String.mk (jsTrim (stripFences rawText.data))

/-! ## `JSON.parse`

The built-in `JSON.parse`, modelled after the JSON grammar of ECMA-404 as a
pushdown automaton that reads the text one character at a time.  A syntax error
is the result `none`.  Characters are named by their code points. -/

/-- JSON white space: tab, line feed, carriage return and space. -/
def isJSONWhite (c : Char) : Bool :=
  let n := c.toNat
  n = 9 || n = 10 || n = 13 || n = 32

/-- Decimal digits. -/
def isDigit (c : Char) : Bool := 48 ≤ c.toNat && c.toNat ≤ 57

/-- The value of a hexadecimal digit. -/
def hexVal (c : Char) : Option Nat :=
  let n := c.toNat
  if 48 ≤ n ∧ n ≤ 57 then some (n - 48)
  else if 65 ≤ n ∧ n ≤ 70 then some (n - 55)
  else if 97 ≤ n ∧ n ≤ 102 then some (n - 87)
  else none

/-- The three literal names of JSON. -/
inductive Keyword where
  | kwTrue : Keyword
  | kwFalse : Keyword
  | kwNull : Keyword

/-- The spelling of a literal name. -/
def Keyword.text : Keyword → List Char
  | .kwTrue => ['t', 'r', 'u', 'e']
  | .kwFalse => ['f', 'a', 'l', 's', 'e']
  | .kwNull => ['n', 'u', 'l', 'l']

/-- The value of a literal name. -/
def Keyword.value : Keyword → JSVal
  | .kwTrue => .bool true
  | .kwFalse => .bool false
  | .kwNull => .null

/-- Where the automaton stands inside a number token. -/
inductive NumPhase where
  | minus : NumPhase     -- after the sign, a digit must follow
  | zero : NumPhase      -- the integer part is the single digit 0
  | int : NumPhase       -- inside an integer part that starts with 1-9
  | dot : NumPhase       -- after the decimal point, a digit must follow
  | frac : NumPhase      -- inside the fraction digits
  | expMark : NumPhase   -- after e or E
  | expSign : NumPhase   -- after the sign of the exponent, a digit must follow
  | exp : NumPhase       -- inside the exponent digits

/-- The phases in which the characters read so far form a complete number. -/
def NumPhase.final : NumPhase → Bool
  | .zero => true
  | .int => true
  | .frac => true
  | .exp => true
  | _ => false

/-- The digits of a number token read so far. -/
structure NumAcc where
  neg : Bool := false
  mant : Nat := 0
  fracLen : Nat := 0
  expNeg : Bool := false
  exp : Nat := 0

/-- The mathematical value of a number token. -/
def NumAcc.value (a : NumAcc) : ℚ :=
  let m : Int := if a.neg then -(a.mant : Int) else a.mant
  let e : Int := (if a.expNeg then -(a.exp : Int) else a.exp) - a.fracLen
  if 0 ≤ e then mkRat (m * 10 ^ e.toNat) 1 else mkRat m (10 ^ (-e).toNat)

/-- One more character of a number token; `none` when the character does not
continue the token. -/
def numStep (p : NumPhase) (a : NumAcc) (c : Char) : Option (NumPhase × NumAcc) :=
  let n := c.toNat
  let d := n - 48
  match p with
  | .minus =>
    if n = 48 then some (.zero, a)
    else if isDigit c then some (.int, { a with mant := d })
    else none
  | .zero =>
    if n = 46 then some (.dot, a)
    else if n = 101 ∨ n = 69 then some (.expMark, a)
    else none
  | .int =>
    if isDigit c then some (.int, { a with mant := a.mant * 10 + d })
    else if n = 46 then some (.dot, a)
    else if n = 101 ∨ n = 69 then some (.expMark, a)
    else none
  | .dot =>
    if isDigit c then some (.frac, { a with mant := a.mant * 10 + d, fracLen := a.fracLen + 1 })
    else none
  | .frac =>
    if isDigit c then some (.frac, { a with mant := a.mant * 10 + d, fracLen := a.fracLen + 1 })
    else if n = 101 ∨ n = 69 then some (.expMark, a)
    else none
  | .expMark =>
    if n = 43 then some (.expSign, a)
    else if n = 45 then some (.expSign, { a with expNeg := true })
    else if isDigit c then some (.exp, { a with exp := d })
    else none
  | .expSign =>
    if isDigit c then some (.exp, { a with exp := d })
    else none
  | .exp =>
    if isDigit c then some (.exp, { a with exp := a.exp * 10 + d })
    else none

/-- An array or object that has been opened and not yet closed. -/
inductive Frame where
  | arrF (items : List JSVal) : Frame
  | objKeyF (fields : List (String × JSVal)) : Frame
  | objValF (fields : List (String × JSVal)) (key : String) : Frame

/-- What the automaton is reading or expects next. -/
inductive Mode where
  | value : Mode                                 -- a value must start
  | valueOrClose : Mode                          -- just after [
  | keyOrClose : Mode                            -- just after the opening brace
  | key : Mode                                   -- after a comma inside an object
  | colon : Mode                                 -- after a key
  | after : Mode                                 -- after a value inside an array or object
  | done (v : JSVal) : Mode                      -- after the top-level value
  | str (acc : List Char) : Mode                 -- inside a string
  | esc (acc : List Char) : Mode                 -- after a backslash inside a string
  | uni (acc : List Char) (hex : List Nat) : Mode -- after backslash-u, hex digits so far
  | lit (kw : Keyword) (i : Nat) : Mode          -- inside a literal name, i characters read
  | numb (p : NumPhase) (a : NumAcc) : Mode      -- inside a number

/-- A state of the automaton: the mode and the open arrays and objects. -/
structure PState where
  mode : Mode
  stack : List Frame

/-- The state in which parsing starts. -/
def PState.init : PState := ⟨.value, []⟩

/-- A value is complete: it becomes the result, an array element or the value
of the pending key. -/
def pushValue (v : JSVal) : List Frame → Option PState
  | [] => some ⟨.done v, []⟩
  | .arrF items :: rest => some ⟨.after, .arrF (items ++ [v]) :: rest⟩
  | .objValF fields k :: rest => some ⟨.after, .objKeyF (setField k v fields) :: rest⟩
  | .objKeyF _ :: _ => none

/-- A string is complete: it is a key when an object expects one, a value
otherwise. -/
def pushString (s : String) : List Frame → Option PState
  | .objKeyF fields :: rest => some ⟨.colon, .objValF fields s :: rest⟩
  | st => pushValue (.str s) st

/-- The character of a four-digit unicode escape.  Strings are sequences of
Unicode scalar values here, so an escape in the surrogate range is recorded as
the replacement character U+FFFD. -/
def escapeChar (hex : List Nat) : Char :=
  let n := hex.foldl (fun acc h => acc * 16 + h) 0
  if 55296 ≤ n ∧ n ≤ 57343 then Char.ofNat 65533 else Char.ofNat n

/-- A character where a value must start. -/
def startValue (st : List Frame) (c : Char) : Option PState :=
  let n := c.toNat
  if n = 123 then some ⟨.keyOrClose, .objKeyF [] :: st⟩
  else if n = 91 then some ⟨.valueOrClose, .arrF [] :: st⟩
  else if n = 34 then some ⟨.str [], st⟩
  else if n = 45 then some ⟨.numb .minus { neg := true }, st⟩
  else if n = 48 then some ⟨.numb .zero {}, st⟩
  else if isDigit c then some ⟨.numb .int { mant := n - 48 }, st⟩
  else if n = 116 then some ⟨.lit .kwTrue 1, st⟩
  else if n = 102 then some ⟨.lit .kwFalse 1, st⟩
  else if n = 110 then some ⟨.lit .kwNull 1, st⟩
  else none

/-- A character after a complete value: white space, a comma or the closer of
the innermost open array or object; after the top-level value only white
space. -/
def stepAfter (m : Mode) (st : List Frame) (c : Char) : Option PState :=
  let n := c.toNat
  if isJSONWhite c then some ⟨m, st⟩
  else match m, st with
    | .after, .arrF items :: rest =>
      if n = 44 then some ⟨.value, st⟩
      else if n = 93 then pushValue (.arr items) rest
      else none
    | .after, .objKeyF fields :: rest =>
      if n = 44 then some ⟨.key, st⟩
      else if n = 125 then pushValue (.obj fields) rest
      else none
    | _, _ => none

/-- One step of the automaton. -/
def step (ps : PState) (c : Char) : Option PState :=
  let n := c.toNat
  let st := ps.stack
  match ps.mode with
  | .value => if isJSONWhite c then some ps else startValue st c
  | .valueOrClose =>
    if isJSONWhite c then some ps
    else if n = 93 then
      match st with
      | .arrF items :: rest => pushValue (.arr items) rest
      | _ => none
    else startValue st c
  | .keyOrClose =>
    if isJSONWhite c then some ps
    else if n = 125 then
      match st with
      | .objKeyF fields :: rest => pushValue (.obj fields) rest
      | _ => none
    else if n = 34 then some ⟨.str [], st⟩
    else none
  | .key =>
    if isJSONWhite c then some ps
    else if n = 34 then some ⟨.str [], st⟩
    else none
  | .colon =>
    if isJSONWhite c then some ps
    else if n = 58 then some ⟨.value, st⟩
    else none
  | .after => stepAfter .after st c
  | .done v => stepAfter (.done v) st c
  | .str acc =>
    if n = 34 then pushString (String.mk acc) st
    else if n = 92 then some ⟨.esc acc, st⟩
    else if n < 32 then none
    else some ⟨.str (acc ++ [c]), st⟩
  | .esc acc =>
    if n = 34 ∨ n = 92 ∨ n = 47 then some ⟨.str (acc ++ [c]), st⟩
    else if n = 98 then some ⟨.str (acc ++ [Char.ofNat 8]), st⟩
    else if n = 102 then some ⟨.str (acc ++ [Char.ofNat 12]), st⟩
    else if n = 110 then some ⟨.str (acc ++ [Char.ofNat 10]), st⟩
    else if n = 114 then some ⟨.str (acc ++ [Char.ofNat 13]), st⟩
    else if n = 116 then some ⟨.str (acc ++ [Char.ofNat 9]), st⟩
    else if n = 117 then some ⟨.uni acc [], st⟩
    else none
  | .uni acc hex =>
    match hexVal c with
    | none => none
    | some h =>
      if hex.length = 3 then some ⟨.str (acc ++ [escapeChar (hex ++ [h])]), st⟩
      else some ⟨.uni acc (hex ++ [h]), st⟩
  | .lit kw i =>
    if kw.text.get? i = some c then
      if i + 1 = kw.text.length then pushValue kw.value st else some ⟨.lit kw (i + 1), st⟩
    else none
  | .numb p a =>
    match numStep p a c with
    | some (p', a') => some ⟨.numb p' a', st⟩
    | none =>
      if p.final then
        match pushValue (.num a.value) st with
        | some ps' => stepAfter ps'.mode ps'.stack c
        | none => none
      else none

/-- The automaton run over a text. -/
def run (ps : PState) : List Char → Option PState
  | [] => some ps
  | c :: cs => (step ps c).bind (fun ps' => run ps' cs)

/-- The end of the text: the top-level value must be complete. -/
def finish (ps : PState) : Option JSVal :=
  match ps.mode, ps.stack with
  | .done v, [] => some v
  | .numb p a, [] => if p.final then some (.num a.value) else none
  | _, _ => none

/-- The function `JSON.parse` on a list of characters. -/
def parseChars (l : List Char) : Option JSVal := (run PState.init l).bind finish

/-- The function `JSON.parse`: the parsed value, or `none` for a `SyntaxError`. -/
def jsonParse (text : String) : Option JSVal := parseChars text.data

/-! ## `parseGeminiResponse` -/

/-- The object `parseGeminiResponse` returns from its `catch` block. -/
def invalidResponse : JSVal :=
  .obj [("error", .str "Invalid Response"),
        ("message", .str "Failed to parse AI response. Check console.")]

/-- The `try` block of `parseGeminiResponse`: `rawText.replace(…).trim()`
followed by `JSON.parse`.  On a value that is not a string the method call
`rawText.replace` throws a `TypeError`; on a text that is not JSON `JSON.parse`
throws a `SyntaxError`. -/
def parseGeminiResponseTry (rawText : JSVal) : Except JSError JSVal :=
  match rawText with
  | .str s =>
    match jsonParse (cleanedText s) with
    | some v => .ok v
    | none => .error ⟨"Unexpected token in JSON"⟩
  | .undefined => .error ⟨typeErrorMessage "undefined" "replace"⟩
  | .null => .error ⟨typeErrorMessage "null" "replace"⟩
  | _ => .error ⟨"rawText.replace is not a function"⟩

/-- The function `parseGeminiResponse`: the `try` block, and the `catch` block
that turns every exception into `invalidResponse`. -/
def parseGeminiResponse (rawText : JSVal) : Except JSError JSVal :=
  match parseGeminiResponseTry rawText with
  | .ok v => .ok v
  | .error _ => .ok invalidResponse

/-! ## The problem and the state of the component -/

/-- An entry of `problem.codeSnippets`. -/
structure CodeSnippet where
  lang : String
  langSlug : String
  code : String

/-- The `problem` prop.  The fields the component reads with `?.` or tests for
presence may be absent (`none`).  Identifiers, code, test-case inputs and
expected outputs are strings. -/
structure Problem where
  _id : Option String
  codeSnippets : Option (List CodeSnippet)
  testCases : Option (List String)
  expectedOutputs : Option (List String)

/-- A notification shown with `toast.success`, `toast.error` or
`toast.warning`, with its text. -/
inductive Toast where
  | success (text : String) : Toast
  | error (text : String) : Toast
  | warning (text : String) : Toast

/-- An entry of the test suite sent to the judge. -/
structure TestCase where
  input : String
  expected : String

/-- A call of `ai.models.generateContent`.  The fixed text of the prompt is
left out; what is recorded are the values interpolated into it. -/
inductive ModelRequest where
  | run (language preparedCode stdin : String) : ModelRequest
  | judge (language preparedCode : String) (testCases : List TestCase) : ModelRequest

/-- The state of the component (the `useState` cells and `isDraggingRef`),
together with the trace of what it has shown and sent: the toasts and the calls
of the model. -/
structure PanelState where
  selectedLanguage : String := "javascript"
  code : String := ""
  isRunning : Bool := false
  isSubmitting : Bool := false
  testCaseHeight : ℚ := 200
  output : JSVal := .null
  showOutput : Bool := false
  isDragging : Bool := false
  toasts : List Toast := []
  requests : List ModelRequest := []

/-- A thrown value: an `Error` object (also a `TypeError` or `SyntaxError`), or
any other value, such as `undefined`, `null`, a string or a plain object. -/
inductive Thrown where
  | error (e : JSError) : Thrown
  | value (v : JSVal) : Thrown

/-- The read `error.message` of a caught value.  On `undefined` and `null` it
throws a `TypeError`. -/
def Thrown.message : Thrown → Except JSError JSVal
  | .error e => .ok (.str e.message)
  | .value v => getProp v "message"

/-- What the model client does when it is used: `new GoogleGenAI(…)` may throw
some value, and `generateContent` either rejects with some value or resolves
with a response whose `text` is the given value. -/
structure ModelBehaviour where
  initError : Option Thrown
  response : Except Thrown JSVal

/-- The operator `a || b` where `a` is a string that may be `undefined`. -/
def optOr (a : Option String) (b : String) : String :=
  match a with
  | some s => strOr s b
  | none => b

/-- The method `String.prototype.trim`. -/
def trim (s : String) : String := String.mk (jsTrim s.data)

/-- Whether `sub` occurs in the list of characters. -/
def includesChars (sub : List Char) : List Char → Bool
  | [] => sub.isPrefixOf []
  | c :: cs => sub.isPrefixOf (c :: cs) || includesChars sub cs

/-- The method `String.prototype.includes`. -/
def includes (s sub : String) : Bool := includesChars sub.data s.data

/-- The method `Array.prototype.map` with a callback of the element and its
index. -/
def arrayMap {α β : Type} (f : α → Nat → β) : Nat → List α → List β
  | _, [] => []
  | i, a :: as => f a i :: arrayMap f (i + 1) as

/-- The method `Array.prototype.find`. -/
def arrayFind {α : Type} (p : α → Bool) : List α → Option α
  | [] => none
  | a :: as => if p a then some a else arrayFind p as

/-! ## Language selector and saved code -/

/-- The constant `geminiApiKey`: the environment variable, or the literal of
line 9 (shortened here; only that it is not empty matters). -/
def geminiApiKey (envKey : Option String) : String := optOr envKey "AIzaSy-fallback-key"

/-- The code shown for a language when nothing is saved: `snippet?.code || ""`
for the first snippet of that language. -/
def snippetCode (problem : Problem) (lang : String) : String :=
  let snippet := problem.codeSnippets.bind (arrayFind (fun s => decide (s.langSlug = lang)))
  optOr (snippet.map (fun s => s.code)) ""

/-- The load effect (lines 22-35), run when `problem` or `selectedLanguage`
changes.  `getUserCode` is the lookup of the saved-code store; the test
`if (savedCode)` holds for a stored code that is not empty. -/
def loadEffect (getUserCode : Option String → String → Option String) (problem : Problem)
    (s : PanelState) : PanelState :=
  if optOr problem._id "" = "" then s
  else
    let s1 :=
      match getUserCode problem._id s.selectedLanguage with
      | some savedCode =>
        if savedCode ≠ "" then { s with code := savedCode }
        else { s with code := snippetCode problem s.selectedLanguage }
      | none => { s with code := snippetCode problem s.selectedLanguage }
    { s1 with output := .null, showOutput := false }

/-- The save effect (lines 37-41): the arguments of the call of `saveUserCode`,
when it is made. -/
def saveEffect (problem : Problem) (s : PanelState) : Option (String × String × String) :=
  if optOr problem._id "" ≠ "" ∧ s.code ≠ "" then
    some (optOr problem._id "", s.selectedLanguage, s.code)
  else none

/-- The function `getCodeSnippet`. -/
def getCodeSnippet (problem : Problem) (s : PanelState) : String :=
  match problem.codeSnippets with
  | none => ""
  | some snippets =>
    optOr ((arrayFind (fun sn => decide (sn.langSlug = s.selectedLanguage)) snippets).map
      (fun sn => sn.code)) ""

/-- The handler `handleLanguageChange`. -/
def handleLanguageChange (getUserCode : Option String → String → Option String)
    (problem : Problem) (lang : String) (s : PanelState) : PanelState :=
  let s1 := { s with selectedLanguage := lang }
  match getUserCode problem._id lang with
  | some savedCode =>
    if savedCode ≠ "" then { s1 with code := savedCode }
    else { s1 with code := snippetCode problem lang }
  | none => { s1 with code := snippetCode problem lang }

/-- The handler `handleResetCode`: the new state and the arguments of the call
of `saveUserCode`. -/
def handleResetCode (problem : Problem) (s : PanelState) :
    PanelState × (Option String × String × String) :=
  let defaultCode := snippetCode problem s.selectedLanguage
  ({ s with code := defaultCode, output := .null, showOutput := false },
    (problem._id, s.selectedLanguage, ""))

/-- The constant `allowedLanguages`. -/
def allowedLanguages : List String := ["cpp", "javascript", "python3", "java"]

/-- An entry of `availableLanguages`. -/
structure LanguageOption where
  value : String
  label : String
  monacoLang : String

/-- The constant `availableLanguages`. -/
def availableLanguages (problem : Problem) : List LanguageOption :=
  match problem.codeSnippets with
  | none => []
  | some snippets =>
    (snippets.filter (fun s => allowedLanguages.contains s.langSlug)).map (fun s =>
      { value := s.langSlug
        label := s.lang
        monacoLang :=
          if s.langSlug = "cpp" then "cpp"
          else if s.langSlug = "python3" then "python"
          else s.langSlug })

/-- The constant `currentLanguage`. -/
def currentLanguage (problem : Problem) (s : PanelState) : String :=
  optOr ((arrayFind (fun l => decide (l.value = s.selectedLanguage))
    (availableLanguages problem)).map (fun l => l.monacoLang)) "javascript"

/-! ## `prepareCode` -/

/-- The template literal `mainFunc`. -/
def mainFunc : String :=
  "\nint main() \x7b\n    Solution sol;\n    int input;\n    while(cin >> input) \x7b\n" ++
  "        cout << sol.getLeastFrequentDigit(input) << endl; \n    \x7d\n    return 0;\n\x7d"

/-- The function `prepareCode`. -/
def prepareCode (code language : String) : String :=
  if language = "cpp" then
    let hasIostream := includes code "#include <iostream>"
    let hasNamespace := includes code "using namespace std"
    let hasMain := includes code "int main"
    let preparedCode :=
      if !hasIostream || !hasNamespace then
        let headers :=
          (if !hasIostream then ["#include <iostream>"] else []) ++
          (if !includes code "#include <vector>" then ["#include <vector>"] else []) ++
          (if !includes code "#include <string>" then ["#include <string>"] else []) ++
          (if !includes code "#include <algorithm>" then ["#include <algorithm>"] else []) ++
          (if !hasNamespace then ["using namespace std;"] else [])
        "\n".intercalate headers ++ "\n\n" ++ code
      else code
    if !hasMain then preparedCode ++ ("\n" ++ mainFunc) else preparedCode
  else code

/-! ## The asynchronous handlers -/

/-- The object shown when no API key is configured. -/
def configurationError : JSVal :=
  .obj [("error", .str "Configuration Error"),
        ("message", .str "Gemini API key not configured. Please check .env file.")]

/-- The object shown when the editor holds no code. -/
def noCodeError : JSVal := .obj [("error", .str "Please write some code first!")]

/-- The digits of `n` zeros. -/
def zeros (n : Nat) : List Char := List.replicate n '0'

/-- The number of fractional digits of the decimal expansion of a fraction with
denominator `den`: the least `j`, from the given one on, with `den` dividing
`10^j`.  Every JSON number has such a `j`; for a fraction that has none the
expansion is cut after 17 digits. -/
def fractionDigits (den : Nat) : Nat → Nat → Nat
  | 0, _ => 17
  | fuel + 1, j => if 10 ^ j % den = 0 then j else fractionDigits den fuel (j + 1)

/-- The conversion of a number to a string inside a template literal
(`Number::toString`), on the exact value of the number.  An integer below 10^21
in absolute value is printed in decimal digits.  Otherwise, with `digits` the
`k` significant digits of the number and `n` the position of the decimal point
after the first of them, the text is the digits followed by zeros, the digits
with a point inside, `0.` followed by zeros and the digits, or the exponential
form, as in ECMA-262. -/
def numberToString (q : ℚ) : String :=
  if q.den = 1 ∧ q.num.natAbs < 10 ^ 21 then toString q.num
  else
    let sign := if q.num < 0 then ['-'] else []
    let j := fractionDigits q.den q.den 0
    let all := (toString (q.num.natAbs * 10 ^ j / q.den)).data
    let digits := (all.reverse.dropWhile (fun c => c == '0')).reverse
    let k := digits.length
    let n : Int := (all.length : Int) - (j : Int)
    let exponent := (if 0 ≤ n - 1 then ['+'] else ['-']) ++ (toString (n - 1).natAbs).data
    String.mk (sign ++
      (if k = 0 then ['0']
       else if (k : Int) ≤ n ∧ n ≤ 21 then digits ++ zeros (n.toNat - k)
       else if 0 < n ∧ n ≤ 21 then digits.take n.toNat ++ '.' :: digits.drop n.toNat
       else if -6 < n ∧ n ≤ 0 then '0' :: '.' :: (zeros (-n).toNat ++ digits)
       else if k = 1 then digits ++ 'e' :: exponent
       else digits.take 1 ++ '.' :: (digits.drop 1 ++ 'e' :: exponent)))

/-- Whether an object has an own property of the given name. -/
def hasField (k : String) (fields : List (String × JSVal)) : Bool :=
  fields.any (fun f => decide (f.1 = k))

mutual
/-- The conversion of a value to a string inside a template literal
(`ToString`).  An array is converted by `Array.prototype.join`.  An object
without an own `toString` property is converted by `Object.prototype.toString`;
an own `toString` property of a parsed object is never a function, and then
neither it nor `valueOf` gives a primitive value, so the conversion throws a
`TypeError`. -/
def toDisplayString : JSVal → Except JSError String
  | .undefined => .ok "undefined"
  | .null => .ok "null"
  | .bool b => .ok (if b then "true" else "false")
  | .num q => .ok (numberToString q)
  | .str s => .ok s
  | .obj fields =>
    if hasField "toString" fields then .error ⟨"Cannot convert object to primitive value"⟩
    else .ok "[object Object]"
  | .arr items =>
    match joinItems items with
    | .ok texts => .ok (",".intercalate texts)
    | .error e => .error e
/-- The texts `Array.prototype.join` puts between commas: `undefined` and
`null` give the empty string, any other element its own conversion, which may
throw. -/
def joinItems : List JSVal → Except JSError (List String)
  | [] => .ok []
  | .undefined :: rest =>
    match joinItems rest with
    | .ok texts => .ok ("" :: texts)
    | .error e => .error e
  | .null :: rest =>
    match joinItems rest with
    | .ok texts => .ok ("" :: texts)
    | .error e => .error e
  | v :: rest =>
    match toDisplayString v with
    | .error e => .error e
    | .ok text =>
      match joinItems rest with
      | .ok texts => .ok (text :: texts)
      | .error e => .error e
end

/-- The function `getGeminiAI`: it throws when no key is configured or when the
constructor of the client throws; in the latter case its `catch` block reads
`error.message` and puts it into the message of a new `Error`. -/
def getGeminiAI (key : String) (m : ModelBehaviour) : Except JSError Unit :=
  if key = "" then .error ⟨"Gemini API key not configured"⟩
  else
    match m.initError with
    | some error =>
      match error.message with
      | .error e => .error e
      | .ok message =>
        match toDisplayString message with
        | .error e => .error e
        | .ok text => .error ⟨"Failed to initialize Gemini: " ++ text⟩
    | none => .ok ()

/-- Lines 203-221 of `handleRunCode`: the object `formattedResult`. -/
def formatRunResult (geminiOutput : JSVal) (firstTestCaseInput : String) :
    Except JSError JSVal := do
  if truthy (← getProp geminiOutput "success") then
    return .obj [("testCase", .num 1), ("passed", .bool true),
      ("input", .str firstTestCaseInput),
      ("output", ← getProp geminiOutput "stdout"),
      ("time", ← getProp geminiOutput "time"),
      ("memory", ← getProp geminiOutput "memory")]
  else
    return .obj [("testCase", .num 1), ("passed", .bool false),
      ("input", .str firstTestCaseInput),
      ("error", jsOr (← getProp geminiOutput "error") (.str "Execution Error")),
      ("message", ← getProp geminiOutput "message")]

/-- Lines 223-228 of `handleRunCode`: the object handed to `setOutput`. -/
def runSummary (formattedResult : JSVal) : Except JSError JSVal := do
  let passed ← getProp formattedResult "passed"
  return .obj [("allPassed", passed), ("testResults", .arr [formattedResult]),
    ("totalTests", .num 1), ("passedTests", if truthy passed then .num 1 else .num 0)]

/-- The `try` block of `handleRunCode`: the state it leaves and whether it
ended normally (also by `return`) or by an exception, with the value thrown. -/
def handleRunCodeTry (envKey : Option String) (problem : Problem) (m : ModelBehaviour)
    (s : PanelState) : PanelState × Except Thrown Unit :=
  if geminiApiKey envKey = "" then
    ({ s with output := configurationError, isRunning := false }, .ok ())
  else
    let preparedCode := prepareCode s.code s.selectedLanguage
    let firstTestCaseInput := optOr (problem.testCases.bind (fun l => l.get? 0)) ""
    match getGeminiAI (geminiApiKey envKey) m with
    | .error e => (s, .error (.error e))
    | .ok _ =>
      let s1 := { s with requests :=
        s.requests ++ [ModelRequest.run s.selectedLanguage preparedCode firstTestCaseInput] }
      match m.response with
      | .error thrown => (s1, .error thrown)
      | .ok text =>
        match (do
            let geminiOutput ← parseGeminiResponse text
            let formattedResult ← formatRunResult geminiOutput firstTestCaseInput
            runSummary formattedResult) with
        | .error e => (s1, .error (.error e))
        | .ok out => ({ s1 with output := out }, .ok ())

/-- The handler `handleRunCode`, from the state in which it is called to the
state in which it ends, with the exception that escapes it, if any.  The
`catch` block reads `error.message` and stores the error object; when that read
throws, the exception escapes.  In both cases the `finally` block clears
`isRunning`. -/
def handleRunCode (envKey : Option String) (problem : Problem) (m : ModelBehaviour)
    (s : PanelState) : PanelState × Option Thrown :=
  if trim s.code = "" then
    ({ s with output := noCodeError, showOutput := true }, none)
  else
    let s0 := { s with isRunning := true, showOutput := true, output := .null }
    let r := handleRunCodeTry envKey problem m s0
    match r.2 with
    | .ok _ => ({ r.1 with isRunning := false }, none)
    | .error error =>
      match error.message with
      | .ok message =>
        ({ r.1 with
            output := .obj [("error", .str "Execution Failed"),
              ("message", jsOr message (.str "Failed to execute code via Gemini"))],
            isRunning := false }, none)
      | .error e => ({ r.1 with isRunning := false }, some (.error e))

/-- Lines 263-266 of `handleSubmit`: the constant `allTestCases`.  The call
`problem.testCases.map` throws when `testCases` is absent. -/
def allTestCases (problem : Problem) : Except JSError (List TestCase) :=
  match problem.testCases with
  | none => .error ⟨typeErrorMessage "undefined" "map"⟩
  | some testCases =>
    .ok (arrayMap (fun input index =>
      { input := input
        expected := optOr (problem.expectedOutputs.bind (fun l => l.get? index)) "" })
      0 testCases)

/-- Lines 334-338 of `handleSubmit`: the text of the warning toast, a template
literal that converts `passedTests` and then `totalTests` to strings. -/
def warningText (geminiOutput : JSVal) : Except JSError String := do
  let passedTests ← toDisplayString (← getProp geminiOutput "passedTests")
  let totalTests ← toDisplayString (← getProp geminiOutput "totalTests")
  return passedTests ++ "/" ++ totalTests ++ " test cases passed."

/-- The `try` block of `handleSubmit`. -/
def handleSubmitTry (envKey : Option String) (problem : Problem)
    (m : ModelBehaviour) (s : PanelState) : PanelState × Except Thrown Unit :=
  if geminiApiKey envKey = "" then
    ({ s with output := configurationError, isSubmitting := false }, .ok ())
  else
    let preparedCode := prepareCode s.code s.selectedLanguage
    match allTestCases problem with
    | .error e => (s, .error (.error e))
    | .ok tests =>
      if tests.length = 0 then
        ({ s with output := .obj [("error", .str "No test cases available for submission")],
                  isSubmitting := false }, .ok ())
      else
        match getGeminiAI (geminiApiKey envKey) m with
        | .error e => (s, .error (.error e))
        | .ok _ =>
          let s1 := { s with requests :=
            s.requests ++ [ModelRequest.judge s.selectedLanguage preparedCode tests] }
          match m.response with
          | .error thrown => (s1, .error thrown)
          | .ok text =>
            match parseGeminiResponse text with
            | .error e => (s1, .error (.error e))
            | .ok geminiOutput =>
              let s2 := { s1 with output := geminiOutput }
              match getProp geminiOutput "allPassed" with
              | .error e => (s2, .error (.error e))
              | .ok allPassed =>
                if truthy allPassed then
                  ({ s2 with
                      toasts := s2.toasts ++ [Toast.success "🎉 All test cases passed! Great job!"],
                      showOutput := false }, .ok ())
                else
                  match getProp geminiOutput "compile_error" with
                  | .error e => (s2, .error (.error e))
                  | .ok compileError =>
                    if truthy compileError then
                      ({ s2 with toasts := s2.toasts ++
                          [Toast.error "Compilation failed. Check the output for details."] },
                        .ok ())
                    else
                      match warningText geminiOutput with
                      | .ok text => ({ s2 with toasts := s2.toasts ++ [Toast.warning text] }, .ok ())
                      | .error e => (s2, .error (.error e))

/-- The handler `handleSubmit`, from the state in which it is called to the
state in which it ends, with the exception that escapes it, if any.  The
`catch` block reads `error.message` and stores the error object; when that read
throws, the exception escapes.  In both cases the `finally` block clears
`isSubmitting`. -/
def handleSubmit (envKey : Option String) (problem : Problem)
    (m : ModelBehaviour) (s : PanelState) : PanelState × Option Thrown :=
  if trim s.code = "" then
    ({ s with output := noCodeError, showOutput := true }, none)
  else
    let s0 := { s with isSubmitting := true, showOutput := true, output := .null }
    let r := handleSubmitTry envKey problem m s0
    match r.2 with
    | .ok _ => ({ r.1 with isSubmitting := false }, none)
    | .error error =>
      match error.message with
      | .ok message =>
        ({ r.1 with
            output := .obj [("error", .str "Submission Failed"),
              ("message", jsOr message (.str "Failed to submit code via Gemini"))],
            isSubmitting := false }, none)
      | .error e => ({ r.1 with isSubmitting := false }, some (.error e))

/-- The constant `isLoading`, which disables the Run and Submit buttons. -/
def isLoading (s : PanelState) : Bool := s.isRunning || s.isSubmitting

/-! ## Resizing the test-case panel -/

/-- The rectangle `container.getBoundingClientRect()`, as far as it is read. -/
structure Rect where
  bottom : ℚ
  height : ℚ

/-- The handler `handleMouseDown`. -/
def handleMouseDown (s : PanelState) : PanelState := { s with isDragging := true }

/-- The handler `handleMouseMove`; `container` is `none` when the element
`right-panel-container` is not in the document, `clientY` is `e.clientY`. -/
def handleMouseMove (container : Option Rect) (clientY : ℚ) (s : PanelState) : PanelState :=
  if !s.isDragging then s
  else
    match container with
    | none => s
    | some containerRect =>
      let newHeight := containerRect.bottom - clientY
      let minHeight : ℚ := 100
      let maxHeight := containerRect.height * 0.6
      { s with testCaseHeight := max minHeight (min maxHeight newHeight) }

/-- The handler `handleMouseUp`. -/
def handleMouseUp (s : PanelState) : PanelState := { s with isDragging := false }

/-! ## Auxiliary notions for the statements -/

/-- A character that is neither white space for `trim` nor a backtick. -/
def solid (c : Char) : Prop := isJSWhite c = false ∧ c.toNat ≠ 96

/-- The rule of the specification for the code shown in the editor: the code
stored for the problem and the language when it is not empty, otherwise the code
of the first snippet of that language, otherwise the empty string. -/
def codeRule (getUserCode : Option String → String → Option String) (problem : Problem)
    (lang : String) : String :=
  match getUserCode problem._id lang with
  | some stored =>
    if stored ≠ "" then stored
    else
      match (problem.codeSnippets.getD []).find? (fun sn => decide (sn.langSlug = lang)) with
      | some sn => sn.code
      | none => ""
  | none =>
    match (problem.codeSnippets.getD []).find? (fun sn => decide (sn.langSlug = lang)) with
    | some sn => sn.code
    | none => ""

/-- The array `headers` that `prepareCode` builds for C++ code. -/
def headers (code : String) : List String :=
  (if !includes code "#include <iostream>" then ["#include <iostream>"] else []) ++
  (if !includes code "#include <vector>" then ["#include <vector>"] else []) ++
  (if !includes code "#include <string>" then ["#include <string>"] else []) ++
  (if !includes code "#include <algorithm>" then ["#include <algorithm>"] else []) ++
  (if !includes code "using namespace std" then ["using namespace std;"] else [])

/-! ## Accepted JSON texts and white space -/

theorem backtick_toNat : backtick.toNat = 96 := by decide

theorem isJSWhite_backtick : isJSWhite backtick = false := by decide

theorem isJSWhite_of_isJSONWhite (c : Char) (h : isJSONWhite c = true) : isJSWhite c = true := by
  simp only [isJSONWhite, isJSWhite, Bool.or_eq_true, decide_eq_true_eq, Bool.and_eq_true] at *
  omega

theorem not_solid_of_isJSWhite (c : Char) (h : isJSWhite c = true) : ¬ solid c := by
  intro hs; rw [hs.1] at h; exact Bool.noConfusion h

theorem not_solid_backtick : ¬ solid backtick := fun h => h.2 backtick_toNat

theorem solid_of_range (c : Char) (h : 33 ≤ c.toNat ∧ c.toNat ≤ 125 ∧ c.toNat ≠ 96) : solid c := by
  refine ⟨?_, h.2.2⟩
  simp only [isJSWhite, Bool.or_eq_false_iff, decide_eq_false_iff_not, Bool.and_eq_false_iff]
  omega

theorem startValue_solid (st : List Frame) (c : Char) (ps : PState)
    (h : startValue st c = some ps) : solid c := by
  apply solid_of_range
  unfold startValue at h
  simp only [isDigit, Bool.and_eq_true, decide_eq_true_eq] at h
  split_ifs at h <;> omega

theorem numStep_solid (p : NumPhase) (a : NumAcc) (c : Char) (r : NumPhase × NumAcc)
    (h : numStep p a c = some r) : solid c := by
  apply solid_of_range
  unfold numStep at h
  simp only [isDigit, Bool.and_eq_true, decide_eq_true_eq] at h
  cases p <;> simp only [] at h <;> split_ifs at h <;> omega

theorem keyword_solid (kw : Keyword) (i : Nat) (c : Char) (h : kw.text.get? i = some c) :
    solid c := by
  have hm : c ∈ kw.text := List.get?_mem h
  cases kw <;>
    simp only [Keyword.text, List.mem_cons, List.mem_singleton, List.not_mem_nil, or_false] at hm
  · rcases hm with rfl | rfl | rfl | rfl <;> exact solid_of_range _ (by decide)
  · rcases hm with rfl | rfl | rfl | rfl | rfl <;> exact solid_of_range _ (by decide)
  · rcases hm with rfl | rfl | rfl | rfl <;> exact solid_of_range _ (by decide)

theorem stepAfter_spec (m : Mode) (st : List Frame) (c : Char) (ps : PState)
    (h : stepAfter m st c = some ps) :
    (isJSONWhite c = true ∧ ps = ⟨m, st⟩) ∨ solid c := by
  unfold stepAfter at h
  by_cases hw : isJSONWhite c = true
  · left; simp only [hw, if_true, Option.some.injEq] at h; exact ⟨hw, h.symm⟩
  · right
    apply solid_of_range
    rw [if_neg hw] at h
    split at h
    · split_ifs at h <;> omega
    · split_ifs at h <;> omega
    · exact absurd h (by simp)

theorem finish_of_mode (ps : PState) (v : JSVal) (h : finish ps = some v) :
    (ps.mode = .done v ∧ ps.stack = []) ∨
    (∃ p a, ps.mode = .numb p a ∧ ps.stack = [] ∧ p.final = true ∧ v = .num a.value) := by
  obtain ⟨m, st⟩ := ps
  unfold finish at h
  split at h
  · next v0 hm hs => simp only [Option.some.injEq] at h; subst h; left; simpa using ⟨hm, hs⟩
  · next p a hm hs =>
    right
    split_ifs at h with hf
    simp only [Option.some.injEq] at h
    exact ⟨p, a, by simpa using hm, by simpa using hs, hf, h.symm⟩
  · exact absurd h (by simp)

theorem finish_after (st : List Frame) : finish ⟨.after, st⟩ = none := by
  unfold finish; rfl

theorem pushValue_mode (v : JSVal) (st : List Frame) (ps : PState)
    (h : pushValue v st = some ps) :
    (st = [] ∧ ps = ⟨.done v, []⟩) ∨ ps.mode = .after := by
  unfold pushValue at h
  split at h
  · left; simp only [Option.some.injEq] at h; exact ⟨rfl, h.symm⟩
  · right; simp only [Option.some.injEq] at h; rw [← h]
  · right; simp only [Option.some.injEq] at h; rw [← h]
  · exact absurd h (by simp)

/-- The last character of an accepted text: either it is JSON white space and
the text before it is accepted with the same value, or it is solid. -/
theorem step_finish (ps ps' : PState) (c : Char) (v : JSVal)
    (hs : step ps c = some ps') (hf : finish ps' = some v) :
    (isJSONWhite c = true ∧ finish ps = some v) ∨ solid c := by
  obtain ⟨m, st⟩ := ps
  cases m <;> simp only [step] at hs
  · -- value
    split_ifs at hs with hw
    · left; simp only [Option.some.injEq] at hs; subst hs; exact ⟨hw, hf⟩
    · right; exact startValue_solid _ _ _ hs
  · -- valueOrClose
    split_ifs at hs with hw h93
    · left; simp only [Option.some.injEq] at hs; subst hs; exact ⟨hw, hf⟩
    · right; exact solid_of_range _ (by omega)
    · right; exact startValue_solid _ _ _ hs
  · -- keyOrClose
    split_ifs at hs with hw h1 h2
    · left; simp only [Option.some.injEq] at hs; subst hs; exact ⟨hw, hf⟩
    · right; exact solid_of_range _ (by omega)
    · right; exact solid_of_range _ (by omega)
  · -- key
    split_ifs at hs with hw h1
    · left; simp only [Option.some.injEq] at hs; subst hs; exact ⟨hw, hf⟩
    · right; exact solid_of_range _ (by omega)
  · -- colon
    split_ifs at hs with hw h1
    · left; simp only [Option.some.injEq] at hs; subst hs; exact ⟨hw, hf⟩
    · right; exact solid_of_range _ (by omega)
  · -- after
    rcases stepAfter_spec _ _ _ _ hs with ⟨hw, e⟩ | h
    · left; subst e; exact ⟨hw, hf⟩
    · right; exact h
  · -- done
    rcases stepAfter_spec _ _ _ _ hs with ⟨hw, e⟩ | h
    · left; subst e; exact ⟨hw, hf⟩
    · right; exact h
  · -- str
    split_ifs at hs with h1 h2 h3
    · right; exact solid_of_range _ (by omega)
    · simp only [Option.some.injEq] at hs; subst hs; simp [finish] at hf
    · simp only [Option.some.injEq] at hs; subst hs; simp [finish] at hf
  · -- esc
    split_ifs at hs <;> simp only [Option.some.injEq] at hs <;> subst hs <;> simp [finish] at hf
  · -- uni
    split at hs
    · exact absurd hs (by simp)
    · split_ifs at hs <;> simp only [Option.some.injEq] at hs <;> subst hs <;> simp [finish] at hf
  · -- lit
    split_ifs at hs with h1 h2
    · right; exact keyword_solid _ _ _ h1
    · right; exact keyword_solid _ _ _ h1
  · -- numb
    rename_i p a
    split at hs
    · next p' a' hn => right; exact numStep_solid _ _ _ _ hn
    · next hn =>
      split_ifs at hs with hfin
      split at hs
      · next ps1 hp =>
        rcases stepAfter_spec _ _ _ _ hs with ⟨hw, e⟩ | h
        · left
          refine ⟨hw, ?_⟩
          rcases pushValue_mode _ _ _ hp with ⟨hst, e1⟩ | hm
          · subst e; rw [e1] at hf
            simp only [finish, Option.some.injEq] at hf
            subst hst
            simp [finish, hfin, hf]
          · subst e; rw [hm] at hf; simp [finish] at hf
        · right; exact h
      · exact absurd hs (by simp)

theorem step_init (c : Char) (ps : PState) (hs : step PState.init c = some ps) :
    (isJSONWhite c = true ∧ ps = PState.init) ∨ solid c := by
  simp only [step, PState.init] at hs
  split_ifs at hs with hw
  · left; simp only [Option.some.injEq] at hs; exact ⟨hw, hs.symm⟩
  · right; exact startValue_solid _ _ _ hs

theorem run_append (ps : PState) (l₁ l₂ : List Char) :
    run ps (l₁ ++ l₂) = (run ps l₁).bind (fun ps' => run ps' l₂) := by
  induction l₁ generalizing ps with
  | nil => rfl
  | cons c cs ih =>
    simp only [List.cons_append, run]
    cases step ps c with
    | none => rfl
    | some ps' => simpa using ih ps'

theorem parseChars_concat (l : List Char) (c : Char) (v : JSVal)
    (h : parseChars (l ++ [c]) = some v) :
    (isJSONWhite c = true ∧ parseChars l = some v) ∨ solid c := by
  unfold parseChars at h
  rw [run_append] at h
  cases hr : run PState.init l with
  | none => rw [hr] at h; exact absurd h (by simp)
  | some ps =>
    rw [hr] at h
    simp only [Option.some_bind, run] at h
    cases hs : step ps c with
    | none => rw [hs] at h; exact absurd h (by simp)
    | some ps' =>
      rw [hs] at h
      simp only [Option.some_bind] at h
      rcases step_finish ps ps' c v hs h with ⟨hw, hf⟩ | hsolid
      · left; exact ⟨hw, by simp [parseChars, hr, hf]⟩
      · right; exact hsolid

theorem parseChars_cons (c : Char) (l : List Char) (v : JSVal)
    (h : parseChars (c :: l) = some v) :
    (isJSONWhite c = true ∧ parseChars l = some v) ∨ solid c := by
  unfold parseChars at h
  simp only [run] at h
  cases hs : step PState.init c with
  | none => rw [hs] at h; exact absurd h (by simp)
  | some ps =>
    rcases step_init c ps hs with ⟨hw, e⟩ | hsolid
    · left
      rw [hs, e] at h
      exact ⟨hw, h⟩
    · right; exact hsolid

theorem parseChars_nil : parseChars [] = none := rfl

/-- White space at the end of an accepted text can be removed. -/
theorem parseChars_strip_right (l w : List Char) (v : JSVal)
    (hw : ∀ c ∈ w, isJSWhite c = true) (h : parseChars (l ++ w) = some v) :
    parseChars l = some v := by
  induction w using List.reverseRecOn with
  | nil => simpa using h
  | append_singleton w c ih =>
    rw [← List.append_assoc] at h
    rcases parseChars_concat _ _ _ h with ⟨_, h'⟩ | hsolid
    · exact ih (fun x hx => hw x (by simp [hx])) h'
    · exact absurd hsolid (not_solid_of_isJSWhite c (hw c (by simp)))

/-- White space at the start of an accepted text can be removed. -/
theorem parseChars_strip_left (w l : List Char) (v : JSVal)
    (hw : ∀ c ∈ w, isJSWhite c = true) (h : parseChars (w ++ l) = some v) :
    parseChars l = some v := by
  induction w with
  | nil => simpa using h
  | cons c w ih =>
    rcases parseChars_cons _ _ _ h with ⟨_, h'⟩ | hsolid
    · exact ih (fun x hx => hw x (by simp [hx])) h'
    · exact absurd hsolid (not_solid_of_isJSWhite c (hw c (by simp)))

/-- An accepted text does not end with a backtick. -/
theorem parseChars_not_backtick (l : List Char) (v : JSVal) :
    parseChars (l ++ [backtick]) ≠ some v := by
  intro h
  rcases parseChars_concat _ _ _ h with ⟨hw, _⟩ | hsolid
  · exact absurd hw (by decide)
  · exact not_solid_backtick hsolid

theorem dropWhile_decomp (p : Char → Bool) (l : List Char) :
    ∃ w, (∀ c ∈ w, p c = true) ∧ l = w ++ l.dropWhile p :=
  ⟨l.takeWhile p, fun _ hc => List.mem_takeWhile_imp hc, (List.takeWhile_append_dropWhile p l).symm⟩

theorem jsTrim_decomp (l : List Char) :
    ∃ w₁ w₂, (∀ c ∈ w₁, isJSWhite c = true) ∧ (∀ c ∈ w₂, isJSWhite c = true) ∧
      l = w₁ ++ jsTrim l ++ w₂ := by
  obtain ⟨w₁, h₁, e₁⟩ := dropWhile_decomp isJSWhite l
  obtain ⟨w₂, h₂, e₂⟩ := dropWhile_decomp isJSWhite (l.dropWhile isJSWhite).reverse
  refine ⟨w₁, w₂.reverse, h₁, fun c hc => h₂ c (List.mem_reverse.mp hc), ?_⟩
  have e₃ : l.dropWhile isJSWhite = jsTrim l ++ w₂.reverse := by
    have := congrArg List.reverse e₂
    simpa [jsTrim] using this
  rw [List.append_assoc, ← e₃]
  exact e₁

/-- Trimming an accepted text leaves an accepted text with the same value. -/
theorem parseChars_jsTrim (l : List Char) (v : JSVal) (h : parseChars l = some v) :
    parseChars (jsTrim l) = some v := by
  obtain ⟨w₁, w₂, h₁, h₂, e⟩ := jsTrim_decomp l
  rw [e, List.append_assoc] at h
  exact parseChars_strip_right _ _ _ h₂ (parseChars_strip_left _ _ _ h₁ h)

theorem isPrefixOf_append_self (a l : List Char) : a.isPrefixOf (a ++ l) = true := by
  induction a with
  | nil => simp [List.isPrefixOf]
  | cons x xs ih => simp [List.isPrefixOf, ih]

theorem eq_append_of_isPrefixOf (a l : List Char) (h : a.isPrefixOf l = true) :
    ∃ t, l = a ++ t := by
  induction a generalizing l with
  | nil => exact ⟨l, rfl⟩
  | cons x xs ih =>
    cases l with
    | nil => simp [List.isPrefixOf] at h
    | cons y ys =>
      simp only [List.isPrefixOf, Bool.and_eq_true, beq_iff_eq] at h
      obtain ⟨t, ht⟩ := ih ys h.2
      exact ⟨t, by rw [h.1, ht]; rfl⟩

theorem matchClose_eq (l : List Char) (h : matchClose l = true) :
    ∃ w, (∀ c ∈ w, isJSWhite c = true) ∧ l = fence ++ w := by
  unfold matchClose at h
  simp only [Bool.and_eq_true, List.all_eq_true] at h
  obtain ⟨t, ht⟩ := eq_append_of_isPrefixOf _ _ h.1
  refine ⟨t, ?_, ht⟩
  have : l.drop fence.length = t := by rw [ht]; simp
  rw [← this]; exact h.2

theorem scanClose_eq_self (l : List Char)
    (h : ∀ pre suf, l = pre ++ suf → matchClose suf = false) : scanClose l = l := by
  induction l with
  | nil => rfl
  | cons c cs ih =>
    have h0 : matchClose (c :: cs) = false := h [] (c :: cs) rfl
    simp only [scanClose, h0, Bool.false_eq_true, if_false, List.cons.injEq, true_and]
    exact ih (fun pre suf e => h (c :: pre) suf (by rw [e]; rfl))

/-- The regular expression matches nowhere in an accepted text. -/
theorem stripFences_of_parseChars (l : List Char) (v : JSVal) (h : parseChars l = some v) :
    stripFences l = l := by
  have hopen : stripOpen l = none := by
    unfold stripOpen
    rw [if_neg]
    intro hp
    obtain ⟨t, ht⟩ := eq_append_of_isPrefixOf _ _ hp
    rw [ht] at h
    rcases parseChars_cons backtick _ v h with ⟨hw, _⟩ | hsolid
    · exact absurd hw (by decide)
    · exact not_solid_backtick hsolid
  unfold stripFences
  rw [hopen]
  apply scanClose_eq_self
  intro pre suf e
  by_contra hm
  obtain ⟨w, hw, es⟩ := matchClose_eq suf (by simpa using hm)
  rw [e, es] at h
  have h' : parseChars ((pre ++ [backtick, backtick]) ++ [backtick] ++ w) = some v := by
    simpa [fence] using h
  exact parseChars_not_backtick _ v (parseChars_strip_right _ _ _ hw h')

theorem dropWhile_append_solid (x y : List Char) (b : Char) (hb : isJSWhite b = false) :
    (x ++ b :: y).dropWhile isJSWhite = x.dropWhile isJSWhite ++ b :: y := by
  induction x with
  | nil => simp [List.dropWhile, hb]
  | cons c cs ih =>
    by_cases hc : isJSWhite c = true
    · simp [List.dropWhile, hc, ih]
    · simp [List.dropWhile, hc]

theorem dropWhile_white_append (w x : List Char) (hw : ∀ c ∈ w, isJSWhite c = true) :
    (w ++ x).dropWhile isJSWhite = x.dropWhile isJSWhite := by
  induction w with
  | nil => rfl
  | cons c cs ih =>
    have hc := hw c (by simp)
    simp only [List.cons_append, List.dropWhile, hc]
    exact ih (fun x hx => hw x (by simp [hx]))

theorem matchClose_before_fence (c : Char) (a w : List Char) :
    matchClose (c :: a ++ fence ++ w) = false := by
  unfold matchClose
  rw [Bool.and_eq_false_iff]
  right
  have hb := isJSWhite_backtick
  rcases a with _ | ⟨x, _ | ⟨y, a⟩⟩ <;> simp [fence, hb]

theorem scanClose_fence (a w : List Char) (hw : ∀ c ∈ w, isJSWhite c = true) :
    scanClose (a ++ fence ++ w) = a := by
  induction a with
  | nil =>
    have : matchClose (fence ++ w) = true := by
      unfold matchClose
      simp only [Bool.and_eq_true, List.all_eq_true]
      exact ⟨by simp [fence], by simpa [fence] using hw⟩
    simp only [List.nil_append]
    show scanClose (backtick :: ([backtick, backtick] ++ w)) = []
    rw [scanClose]
    rw [if_pos (by simpa [fence] using this)]
  | cons c cs ih =>
    have := matchClose_before_fence c cs w
    simp only [List.cons_append] at this ⊢
    rw [scanClose, this]
    simpa using ih

/-- The cleaning of a reply that wraps a text in a `json` code fence. -/
theorem stripFences_fenced (w₁ j w₂ w₃ : List Char) (h₃ : ∀ c ∈ w₃, isJSWhite c = true) :
    stripFences (fenceJson ++ w₁ ++ j ++ w₂ ++ fence ++ w₃) =
      (w₁ ++ j ++ w₂).dropWhile isJSWhite := by
  have hopen : stripOpen (fenceJson ++ w₁ ++ j ++ w₂ ++ fence ++ w₃) =
      some ((w₁ ++ j ++ w₂).dropWhile isJSWhite ++ fence ++ w₃) := by
    unfold stripOpen
    have hp : fenceJson.isPrefixOf (fenceJson ++ w₁ ++ j ++ w₂ ++ fence ++ w₃) = true := by
      have e : fenceJson ++ w₁ ++ j ++ w₂ ++ fence ++ w₃ =
          fenceJson ++ (w₁ ++ j ++ w₂ ++ fence ++ w₃) := by
        simp only [List.append_assoc]
      rw [e]
      exact isPrefixOf_append_self _ _
    rw [if_pos hp]
    have hd : (fenceJson ++ w₁ ++ j ++ w₂ ++ fence ++ w₃).drop fenceJson.length =
        (w₁ ++ j ++ w₂) ++ backtick :: ([backtick, backtick] ++ w₃) := by
      simp [fence]
    rw [hd, dropWhile_append_solid _ _ _ isJSWhite_backtick]
    simp [fence]
  unfold stripFences
  rw [hopen]
  exact scanClose_fence _ _ h₃

theorem jsTrim_dropWhile (l : List Char) : jsTrim (l.dropWhile isJSWhite) = jsTrim l := by
  unfold jsTrim
  rw [List.dropWhile_idempotent]

theorem rdrop_append_white (x w : List Char) (hw : ∀ c ∈ w, isJSWhite c = true) :
    ((x ++ w).reverse.dropWhile isJSWhite).reverse = (x.reverse.dropWhile isJSWhite).reverse := by
  rw [List.reverse_append, dropWhile_white_append _ _ (fun c hc => hw c (List.mem_reverse.mp hc))]

theorem jsTrim_pad (w₁ j w₂ : List Char) (h₁ : ∀ c ∈ w₁, isJSWhite c = true)
    (h₂ : ∀ c ∈ w₂, isJSWhite c = true) : jsTrim (w₁ ++ j ++ w₂) = jsTrim j := by
  unfold jsTrim
  rw [List.append_assoc, dropWhile_white_append _ _ h₁]
  induction j with
  | nil =>
    have : (w₂).dropWhile isJSWhite = [] := by
      rw [List.dropWhile_eq_nil_iff]; exact h₂
    simp [this]
  | cons c cs ih =>
    by_cases hc : isJSWhite c = true
    · simpa [List.dropWhile, hc] using ih
    · have e₁ : (c :: cs ++ w₂).dropWhile isJSWhite = (c :: cs) ++ w₂ := by
        simp [List.dropWhile, hc]
      have e₂ : (c :: cs).dropWhile isJSWhite = c :: cs := by simp [List.dropWhile, hc]
      rw [e₁, e₂]
      exact rdrop_append_white _ _ h₂

theorem parseGeminiResponse_invalid (text : JSVal)
    (hbad : ∀ str, text = .str str → jsonParse (cleanedText str) = none) :
    parseGeminiResponse text = .ok invalidResponse := by
  unfold parseGeminiResponse parseGeminiResponseTry
  cases text with
  | str s => simp [hbad s rfl]
  | _ => rfl

/-- Claim C1.  For every value passed as `rawText`, a string or not,
`parseGeminiResponse` returns a value and does not throw; and whenever `rawText`
is not a string whose cleaned text (fences stripped, then trimmed) is valid JSON,
the value returned is exactly the object with `error` "Invalid Response" and
`message` "Failed to parse AI response. Check console.". -/
theorem parseGeminiResponse_never_throws (rawText : JSVal) :
    (∃ v, parseGeminiResponse rawText = .ok v) ∧
    ((∀ s, rawText = .str s → jsonParse (cleanedText s) = none) →
      parseGeminiResponse rawText = .ok (.obj [("error", .str "Invalid Response"),
        ("message", .str "Failed to parse AI response. Check console.")])) := by
  constructor
  · unfold parseGeminiResponse
    cases parseGeminiResponseTry rawText with
    | ok v => exact ⟨v, rfl⟩
    | error e => exact ⟨invalidResponse, rfl⟩
  · exact parseGeminiResponse_invalid rawText

theorem parseGeminiResponse_never_throws_witness :
    parseGeminiResponse (.str "Sure! Here is the result.") =
      .ok (.obj [("error", .str "Invalid Response"),
        ("message", .str "Failed to parse AI response. Check console.")]) ∧
    parseGeminiResponse .undefined =
      .ok (.obj [("error", .str "Invalid Response"),
        ("message", .str "Failed to parse AI response. Check console.")]) :=
  ⟨(parseGeminiResponse_never_throws (.str "Sure! Here is the result.")).2
      (fun s h => by cases h; rfl),
   (parseGeminiResponse_never_throws .undefined).2 (fun s h => by cases h)⟩

theorem parseGeminiResponse_of_cleaned (s : String) (v : JSVal)
    (h : parseChars (jsTrim (stripFences s.data)) = some v) :
    parseGeminiResponse (.str s) = .ok v := by
  unfold parseGeminiResponse parseGeminiResponseTry
  have : jsonParse (cleanedText s) = some v := h
  simp [this]

/-- Claim C2, amended.  For every valid JSON text `j`, `parseGeminiResponse`
returns `JSON.parse(j)` when the reply is `j` itself, and when the reply is `j`
wrapped in a markdown `json` code fence whose opening fence stands at the very
start of the reply, with any amount of white space between the fences and the
JSON and after the closing fence. -/
theorem parseGeminiResponse_fenced (j : String) (v : JSVal) (hj : jsonParse j = some v) :
    parseGeminiResponse (.str j) = .ok v ∧
    ∀ w₁ w₂ w₃ : String,
      (∀ c ∈ w₁.data, isJSWhite c = true) → (∀ c ∈ w₂.data, isJSWhite c = true) →
      (∀ c ∈ w₃.data, isJSWhite c = true) →
      parseGeminiResponse (.str ("```json" ++ w₁ ++ j ++ w₂ ++ "```" ++ w₃)) = .ok v := by
  have hj' : parseChars j.data = some v := hj
  constructor
  · apply parseGeminiResponse_of_cleaned
    rw [stripFences_of_parseChars _ _ hj']
    exact parseChars_jsTrim _ _ hj'
  · intro w₁ w₂ w₃ h₁ h₂ h₃
    apply parseGeminiResponse_of_cleaned
    have e : ("```json" ++ w₁ ++ j ++ w₂ ++ "```" ++ w₃).data =
        fenceJson ++ w₁.data ++ j.data ++ w₂.data ++ fence ++ w₃.data := by
      simp only [String.data_append]
      rfl
    rw [e, stripFences_fenced _ _ _ _ h₃, jsTrim_dropWhile, jsTrim_pad _ _ _ h₁ h₂]
    exact parseChars_jsTrim _ _ hj'

theorem parseGeminiResponse_fenced_witness :
    parseGeminiResponse (.str "\x7b\"success\": true\x7d") =
      .ok (.obj [("success", .bool true)]) ∧
    parseGeminiResponse (.str ("```json" ++ "\n" ++ "\x7b\"success\": true\x7d" ++ "\n" ++ "```" ++ " \n")) =
      .ok (.obj [("success", .bool true)]) :=
  ⟨(parseGeminiResponse_fenced "\x7b\"success\": true\x7d" (.obj [("success", .bool true)]) rfl).1,
   (parseGeminiResponse_fenced "\x7b\"success\": true\x7d" (.obj [("success", .bool true)]) rfl).2
      "\n" "\n" " \n" (by decide) (by decide) (by decide)⟩

/-- Claim C2 fails as stated: a single space before the opening fence keeps the
regular expression, anchored at the start of the text, from removing the fence,
and the reply that wraps the valid JSON text of the empty object is answered
with the error object. -/
theorem parseGeminiResponse_space_before_fence :
    jsonParse "\x7b\x7d" = some (.obj []) ∧
    parseGeminiResponse (.str (" " ++ "```json" ++ "\n" ++ "\x7b\x7d" ++ "\n" ++ "```")) =
      .ok invalidResponse ∧
    parseGeminiResponse (.str (" " ++ "```json" ++ "\n" ++ "\x7b\x7d" ++ "\n" ++ "```")) ≠
      .ok (.obj []) := by
  refine ⟨rfl, rfl, ?_⟩
  have h : parseGeminiResponse (.str (" " ++ "```json" ++ "\n" ++ "\x7b\x7d" ++ "\n" ++ "```")) =
      .ok invalidResponse := rfl
  rw [h]
  simp [invalidResponse]


/-! ## The handlers -/

theorem strOr_empty (a : String) : strOr a "" = a := by
  unfold strOr; split_ifs with h
  · rfl
  · exact (not_not.mp h).symm

theorem strOr_ne_empty (a b : String) (hb : b ≠ "") : strOr a b ≠ "" := by
  unfold strOr; split_ifs with h
  · exact h
  · exact hb

theorem optOr_empty (a : Option String) : optOr a "" = a.getD "" := by
  cases a with
  | none => rfl
  | some s => exact strOr_empty s

theorem geminiApiKey_ne_empty (envKey : Option String) : geminiApiKey envKey ≠ "" := by
  unfold geminiApiKey optOr
  cases envKey with
  | none => decide
  | some k => exact strOr_ne_empty k _ (by decide)

theorem getGeminiAI_ok (envKey : Option String) (m : ModelBehaviour) (h : m.initError = none) :
    getGeminiAI (geminiApiKey envKey) m = .ok () := by
  unfold getGeminiAI
  rw [if_neg (geminiApiKey_ne_empty envKey), h]

theorem formatRunResult_obj (fields : List (String × JSVal)) (input : String) :
    formatRunResult (.obj fields) input = .ok
      (if truthy (lookupField "success" fields) then
        .obj [("testCase", .num 1), ("passed", .bool true), ("input", .str input),
          ("output", lookupField "stdout" fields), ("time", lookupField "time" fields),
          ("memory", lookupField "memory" fields)]
      else
        .obj [("testCase", .num 1), ("passed", .bool false), ("input", .str input),
          ("error", jsOr (lookupField "error" fields) (.str "Execution Error")),
          ("message", lookupField "message" fields)]) := by
  unfold formatRunResult
  simp only [getProp, bind, Except.bind, pure, Except.pure]
  split_ifs <;> rfl

theorem firstTestCase_eq (problem : Problem) :
    optOr (problem.testCases.bind (fun l => l.get? 0)) "" =
      (match problem.testCases with
       | some (t :: _) => t
       | _ => "") := by
  rw [optOr_empty]
  rcases problem.testCases with _ | ⟨_ | ⟨t, l⟩⟩ <;> rfl

theorem runSummary_obj (b : Bool) (n : JSVal) (rest : List (String × JSVal)) :
    runSummary (.obj (("testCase", n) :: ("passed", .bool b) :: rest)) = .ok
      (.obj [("allPassed", .bool b),
        ("testResults", .arr [.obj (("testCase", n) :: ("passed", .bool b) :: rest)]),
        ("totalTests", .num 1), ("passedTests", .num (if b then 1 else 0))]) := by
  cases b <;> rfl

/-- The state in which `handleRunCode` ends on non-blank code: the state the
`try` block leaves, with `isRunning` cleared and possibly another `output`. -/
theorem handleRunCode_result (envKey : Option String) (problem : Problem) (m : ModelBehaviour)
    (s : PanelState) (hcode : trim s.code ≠ "") :
    ∃ out escaped, handleRunCode envKey problem m s =
      ({ (handleRunCodeTry envKey problem m
            { s with isRunning := true, showOutput := true, output := .null }).1 with
          output := out, isRunning := false }, escaped) := by
  unfold handleRunCode
  rw [if_neg hcode]
  simp only []
  generalize handleRunCodeTry envKey problem m
    { s with isRunning := true, showOutput := true, output := .null } = r
  rcases r with ⟨r1, t | u⟩
  · simp only []
    cases hm : t.message with
    | ok msg => exact ⟨_, _, rfl⟩
    | error e => exact ⟨r1.output, _, rfl⟩
  · exact ⟨r1.output, _, rfl⟩

theorem handleRunCode_of_ok (envKey : Option String) (problem : Problem) (m : ModelBehaviour)
    (s r1 : PanelState) (hcode : trim s.code ≠ "")
    (h : handleRunCodeTry envKey problem m
      { s with isRunning := true, showOutput := true, output := .null } = (r1, .ok ())) :
    handleRunCode envKey problem m s = ({ r1 with isRunning := false }, none) := by
  unfold handleRunCode
  rw [if_neg hcode]
  simp only [h]

theorem handleRunCode_of_error (envKey : Option String) (problem : Problem) (m : ModelBehaviour)
    (s r1 : PanelState) (thrown : Thrown) (hcode : trim s.code ≠ "")
    (h : handleRunCodeTry envKey problem m
      { s with isRunning := true, showOutput := true, output := .null } = (r1, .error thrown)) :
    handleRunCode envKey problem m s =
      (match thrown.message with
       | .ok message =>
         ({ r1 with
             output := .obj [("error", .str "Execution Failed"),
               ("message", jsOr message (.str "Failed to execute code via Gemini"))],
             isRunning := false }, none)
       | .error e => ({ r1 with isRunning := false }, some (.error e))) := by
  unfold handleRunCode
  rw [if_neg hcode]
  simp only [h]

/-- The state in which `handleSubmit` ends on non-blank code: the state the
`try` block leaves, with `isSubmitting` cleared and possibly another `output`. -/
theorem handleSubmit_result (envKey : Option String) (problem : Problem) (m : ModelBehaviour)
    (s : PanelState) (hcode : trim s.code ≠ "") :
    ∃ out escaped, handleSubmit envKey problem m s =
      ({ (handleSubmitTry envKey problem m
            { s with isSubmitting := true, showOutput := true, output := .null }).1 with
          output := out, isSubmitting := false }, escaped) := by
  unfold handleSubmit
  rw [if_neg hcode]
  simp only []
  generalize handleSubmitTry envKey problem m
    { s with isSubmitting := true, showOutput := true, output := .null } = r
  rcases r with ⟨r1, t | u⟩
  · simp only []
    cases hm : t.message with
    | ok msg => exact ⟨_, _, rfl⟩
    | error e => exact ⟨r1.output, _, rfl⟩
  · exact ⟨r1.output, _, rfl⟩

theorem handleSubmit_of_ok (envKey : Option String) (problem : Problem) (m : ModelBehaviour)
    (s r1 : PanelState) (hcode : trim s.code ≠ "")
    (h : handleSubmitTry envKey problem m
      { s with isSubmitting := true, showOutput := true, output := .null } = (r1, .ok ())) :
    handleSubmit envKey problem m s = ({ r1 with isSubmitting := false }, none) := by
  unfold handleSubmit
  rw [if_neg hcode]
  simp only [h]

theorem handleSubmit_of_error (envKey : Option String) (problem : Problem) (m : ModelBehaviour)
    (s r1 : PanelState) (thrown : Thrown) (hcode : trim s.code ≠ "")
    (h : handleSubmitTry envKey problem m
      { s with isSubmitting := true, showOutput := true, output := .null } = (r1, .error thrown)) :
    handleSubmit envKey problem m s =
      (match thrown.message with
       | .ok message =>
         ({ r1 with
             output := .obj [("error", .str "Submission Failed"),
               ("message", jsOr message (.str "Failed to submit code via Gemini"))],
             isSubmitting := false }, none)
       | .error e => ({ r1 with isSubmitting := false }, some (.error e))) := by
  unfold handleSubmit
  rw [if_neg hcode]
  simp only [h]

/-- What `handleRunCode` stores in `output` when the model replies with a text
that `parseGeminiResponse` turns into the value `g` and the result can be
formatted. -/
theorem handleRunCode_output (envKey : Option String) (problem : Problem) (m : ModelBehaviour)
    (s : PanelState) (text g out : JSVal)
    (hcode : trim s.code ≠ "") (hinit : m.initError = none) (hresp : m.response = .ok text)
    (hparse : parseGeminiResponse text = .ok g)
    (hout : (formatRunResult g (optOr (problem.testCases.bind (fun l => l.get? 0)) "")).bind
      runSummary = .ok out) :
    (handleRunCode envKey problem m s).1.output = out := by
  have hout' : (do
      let geminiOutput ← parseGeminiResponse text
      let formattedResult ← formatRunResult geminiOutput
        (optOr (problem.testCases.bind (fun l => l.get? 0)) "")
      runSummary formattedResult) = Except.ok out := by
    rw [hparse]; exact hout
  simp only [handleRunCode, if_neg hcode, handleRunCodeTry,
    if_neg (geminiApiKey_ne_empty envKey), getGeminiAI_ok envKey m hinit, hresp, hout']

/-- Claim C4.  For non-blank code and a model reply that parses to an object
`r` (with fields `fields`), `handleRunCode` sets `output` to a summary of exactly
one test: `totalTests` is 1, `testResults` has exactly one element, numbered
`testCase` 1, whose `input` is `problem.testCases[0]` (the empty string when the
problem has no test case); `passed` and `allPassed` are both the truth value of
`r.success`, and `passedTests` is 1 in that case and 0 otherwise, so it is at
most `totalTests` and equals it exactly when `allPassed` holds. -/
theorem handleRunCode_summary (envKey : Option String) (problem : Problem) (m : ModelBehaviour)
    (s : PanelState) (text : JSVal) (fields : List (String × JSVal))
    (hcode : trim s.code ≠ "") (hinit : m.initError = none) (hresp : m.response = .ok text)
    (hparse : parseGeminiResponse text = .ok (.obj fields)) :
    ∃ rest : List (String × JSVal),
      (handleRunCode envKey problem m s).1.output =
        .obj [("allPassed", .bool (truthy (lookupField "success" fields))),
              ("testResults", .arr [.obj (("testCase", .num 1) ::
                ("passed", .bool (truthy (lookupField "success" fields))) ::
                ("input", .str (match problem.testCases with
                                | some (t :: _) => t
                                | _ => "")) :: rest)]),
              ("totalTests", .num 1),
              ("passedTests", .num (if truthy (lookupField "success" fields) then 1 else 0))] ∧
      (if truthy (lookupField "success" fields) then (1 : ℚ) else 0) ≤ 1 ∧
      (truthy (lookupField "success" fields) = true ↔
        (if truthy (lookupField "success" fields) then (1 : ℚ) else 0) = 1) := by
  rw [← firstTestCase_eq]
  by_cases hs : truthy (lookupField "success" fields) = true
  · refine ⟨[("output", lookupField "stdout" fields), ("time", lookupField "time" fields),
      ("memory", lookupField "memory" fields)],
      handleRunCode_output envKey problem m s text _ _ hcode hinit hresp hparse ?_, ?_⟩
    · rw [formatRunResult_obj, if_pos hs, hs]
      exact runSummary_obj true _ _
    · simp [hs]
  · refine ⟨[("error", jsOr (lookupField "error" fields) (.str "Execution Error")),
      ("message", lookupField "message" fields)],
      handleRunCode_output envKey problem m s text _ _ hcode hinit hresp hparse ?_, ?_⟩
    · rw [formatRunResult_obj, if_neg hs, Bool.not_eq_true _ |>.mp hs]
      exact runSummary_obj false _ _
    · simp [hs]


theorem handleRunCode_summary_witness :
    ∃ rest : List (String × JSVal),
      (handleRunCode none
        { _id := some "p1", codeSnippets := none, testCases := some ["1 2"],
          expectedOutputs := none }
        { initError := none,
          response := .ok (.str "\x7b\"success\": true, \"stdout\": \"3\"\x7d") }
        { code := "x" }).1.output =
        .obj [("allPassed", .bool true),
              ("testResults", .arr [.obj (("testCase", .num 1) :: ("passed", .bool true) ::
                ("input", .str "1 2") :: rest)]),
              ("totalTests", .num 1), ("passedTests", .num 1)] := by
  obtain ⟨rest, h, -⟩ := handleRunCode_summary none
    { _id := some "p1", codeSnippets := none, testCases := some ["1 2"],
      expectedOutputs := none }
    { initError := none,
      response := .ok (.str "\x7b\"success\": true, \"stdout\": \"3\"\x7d") }
    { code := "x" } (.str "\x7b\"success\": true, \"stdout\": \"3\"\x7d")
    [("success", .bool true), ("stdout", .str "3")] (by decide) rfl rfl rfl
  exact ⟨rest, h⟩

theorem truthy_jsOr_label (a : JSVal) : truthy (jsOr a (.str "Execution Error")) = true := by
  unfold jsOr
  split_ifs with h
  · exact h
  · decide

theorem jsOr_of_falsy (a b : JSVal) (h : truthy a = false) : jsOr a b = b := by
  unfold jsOr; rw [h]; rfl

/-- The `formattedResult` of a failed run. -/
theorem formatRunResult_failed (g : JSVal) (input : String) (result : JSVal)
    (hf : formatRunResult g input = .ok result) (hp : getProp result "passed" = .ok (.bool false)) :
    ∃ e msg, getProp g "error" = .ok e ∧
      result = .obj [("testCase", .num 1), ("passed", .bool false), ("input", .str input),
        ("error", jsOr e (.str "Execution Error")), ("message", msg)] := by
  unfold formatRunResult at hf
  cases g <;> simp only [getProp, bind, Except.bind, pure, Except.pure] at hf
  all_goals first
    | exact absurd hf (by simp)
    | (split_ifs at hf <;> simp only [Except.ok.injEq] at hf <;> subst hf
       · simp [getProp, lookupField] at hp
       · exact ⟨_, _, rfl, rfl⟩)

theorem formatRunResult_label (g : JSVal) (input : String) (result : JSVal)
    (hf : formatRunResult g input = .ok result) (hp : getProp result "passed" = .ok (.bool false)) :
    ∃ label, getProp result "error" = .ok label ∧ truthy label = true ∧
      ∀ e, getProp g "error" = .ok e → truthy e = false → label = .str "Execution Error" := by
  obtain ⟨e, msg, he, hr⟩ := formatRunResult_failed g input result hf hp
  refine ⟨jsOr e (.str "Execution Error"), ?_, truthy_jsOr_label e, ?_⟩
  · rw [hr]; rfl
  · intro e' he' hfalsy
    rw [he] at he'
    simp only [Except.ok.injEq] at he'
    subst he'
    exact jsOr_of_falsy _ _ hfalsy

/-- Claim C9.  For non-blank code and a model reply whose text is not valid
JSON after fence stripping (or is not a string at all), `handleRunCode` ends
with `output` reporting a single failed test: `allPassed` false, `passedTests`
0, `totalTests` 1, and the one test result has `passed` false, `error`
"Invalid Response" and `message` "Failed to parse AI response. Check console.".
Moreover every failed run result carries a truthy (so non-empty) `error` label,
which is "Execution Error" when the reply gives none. -/
theorem handleRunCode_invalid_reply (envKey : Option String) (problem : Problem)
    (m : ModelBehaviour) (s : PanelState) (text : JSVal)
    (hcode : trim s.code ≠ "") (hinit : m.initError = none) (hresp : m.response = .ok text)
    (hbad : ∀ str, text = .str str → jsonParse (cleanedText str) = none) :
    (handleRunCode envKey problem m s).1.output =
      .obj [("allPassed", .bool false),
            ("testResults", .arr [.obj [("testCase", .num 1), ("passed", .bool false),
              ("input", .str (match problem.testCases with
                              | some (t :: _) => t
                              | _ => "")),
              ("error", .str "Invalid Response"),
              ("message", .str "Failed to parse AI response. Check console.")]]),
            ("totalTests", .num 1), ("passedTests", .num 0)] ∧
    ∀ (g : JSVal) (input : String) (result : JSVal),
      formatRunResult g input = .ok result → getProp result "passed" = .ok (.bool false) →
      ∃ label, getProp result "error" = .ok label ∧ truthy label = true ∧
        ∀ e, getProp g "error" = .ok e → truthy e = false → label = .str "Execution Error" := by
  constructor
  · rw [← firstTestCase_eq]
    refine handleRunCode_output envKey problem m s text _ _ hcode hinit hresp
      (parseGeminiResponse_invalid text hbad) ?_
    rfl
  · intro g input result hf hp
    exact formatRunResult_label g input result hf hp


theorem handleRunCode_invalid_reply_witness :
    (handleRunCode none
      { _id := some "p1", codeSnippets := none, testCases := some ["1 2"],
        expectedOutputs := none }
      { initError := none, response := .ok (.str "I cannot run this code.") }
      { code := "x" }).1.output =
      .obj [("allPassed", .bool false),
            ("testResults", .arr [.obj [("testCase", .num 1), ("passed", .bool false),
              ("input", .str "1 2"), ("error", .str "Invalid Response"),
              ("message", .str "Failed to parse AI response. Check console.")]]),
            ("totalTests", .num 1), ("passedTests", .num 0)] :=
  (handleRunCode_invalid_reply none
    { _id := some "p1", codeSnippets := none, testCases := some ["1 2"],
      expectedOutputs := none }
    { initError := none, response := .ok (.str "I cannot run this code.") }
    { code := "x" } (.str "I cannot run this code.") (by decide) rfl rfl
    (fun str h => by cases h; rfl)).1

theorem arrayMap_length {α β : Type} (f : α → Nat → β) (i : Nat) (l : List α) :
    (arrayMap f i l).length = l.length := by
  induction l generalizing i with
  | nil => rfl
  | cons a as ih => simp [arrayMap, ih]

theorem arrayMap_getElem? {α β : Type} (f : α → Nat → β) (i k : Nat) (l : List α) :
    (arrayMap f i l)[k]? = (l[k]?).map (fun a => f a (i + k)) := by
  induction l generalizing i k with
  | nil => simp [arrayMap]
  | cons a as ih =>
    cases k with
    | zero => simp [arrayMap]
    | succ k => simp [arrayMap, ih, Nat.add_assoc, Nat.add_comm 1 k]

/-- The test suite built from a problem whose `testCases` is a list. -/
theorem allTestCases_spec (problem : Problem) (testCases : List String)
    (htc : problem.testCases = some testCases) :
    ∃ suite, allTestCases problem = .ok suite ∧ suite.length = testCases.length ∧
      ∀ i : Nat, suite[i]? = (testCases[i]?).map (fun input =>
        TestCase.mk input (match problem.expectedOutputs with
          | some outputs => (outputs[i]?).getD ""
          | none => "")) := by
  refine ⟨_, by rw [allTestCases, htc], arrayMap_length _ _ _, ?_⟩
  intro i
  rw [arrayMap_getElem?]
  congr 1
  funext input
  rw [optOr_empty, Nat.zero_add]
  cases problem.expectedOutputs <;> simp

theorem getGeminiAI_error (envKey : Option String) (m : ModelBehaviour) (thrown : Thrown)
    (h : m.initError = some thrown) :
    ∃ e, getGeminiAI (geminiApiKey envKey) m = .error e := by
  unfold getGeminiAI
  rw [if_neg (geminiApiKey_ne_empty envKey), h]
  simp only []
  repeat' split
  all_goals exact ⟨_, rfl⟩

/-- The calls of the model made by the `try` block of `handleSubmit`. -/
theorem handleSubmitTry_requests (envKey : Option String) (problem : Problem)
    (m : ModelBehaviour) (s : PanelState) (suite : List TestCase)
    (hsuite : allTestCases problem = .ok suite) :
    (handleSubmitTry envKey problem m s).1.requests =
      if suite.length ≠ 0 ∧ m.initError.isNone = true then
        s.requests ++
          [ModelRequest.judge s.selectedLanguage (prepareCode s.code s.selectedLanguage) suite]
      else s.requests := by
  simp only [handleSubmitTry, if_neg (geminiApiKey_ne_empty envKey), hsuite]
  by_cases hl : suite.length = 0
  · simp [hl]
  · cases hi : m.initError with
    | some e =>
      obtain ⟨e', he'⟩ := getGeminiAI_error envKey m e hi
      simp [hl, he']
    | none =>
      simp only [if_neg hl, getGeminiAI_ok envKey m hi, ne_eq, hl, not_false_eq_true,
        Option.isNone_none, and_self, if_true]
      repeat' split
      all_goals first | rfl | (exfalso; assumption)

/-- The calls of the model made by `handleSubmit`. -/
theorem handleSubmit_requests (envKey : Option String) (problem : Problem)
    (m : ModelBehaviour) (s : PanelState) (suite : List TestCase)
    (hsuite : allTestCases problem = .ok suite) :
    (handleSubmit envKey problem m s).1.requests =
      if trim s.code ≠ "" ∧ suite.length ≠ 0 ∧ m.initError.isNone = true then
        s.requests ++
          [ModelRequest.judge s.selectedLanguage (prepareCode s.code s.selectedLanguage) suite]
      else s.requests := by
  by_cases hcode : trim s.code = ""
  · simp [handleSubmit, hcode]
  · obtain ⟨out, escaped, h⟩ := handleSubmit_result envKey problem m s hcode
    rw [h]
    simp only [ne_eq, hcode, not_false_eq_true, true_and]
    exact handleSubmitTry_requests envKey problem m
      { s with isSubmitting := true, showOutput := true, output := .null } suite hsuite

/-- Claim C3.  For a problem whose `testCases` is a list, the test suite that
`handleSubmit` sends to the judge has exactly one entry per element of
`problem.testCases`, in the same order: entry `i` has `input` equal to
`problem.testCases[i]` and `expected` equal to `problem.expectedOutputs[i]`, or
the empty string when `expectedOutputs` is absent or has no (or an empty) value
at `i`.  The handler sends nothing else to the model, and it does send this
suite when the code is not blank, the list is not empty and the client can be
created. -/
theorem handleSubmit_test_suite (envKey : Option String) (problem : Problem)
    (m : ModelBehaviour) (s : PanelState) (testCases : List String)
    (htc : problem.testCases = some testCases) :
    ∃ suite : List TestCase,
      suite.length = testCases.length ∧
      (∀ i : Nat, suite[i]? = (testCases[i]?).map (fun input =>
        TestCase.mk input (match problem.expectedOutputs with
          | some outputs => (outputs[i]?).getD ""
          | none => ""))) ∧
      ((handleSubmit envKey problem m s).1.requests = s.requests ∨
        (handleSubmit envKey problem m s).1.requests = s.requests ++
          [ModelRequest.judge s.selectedLanguage (prepareCode s.code s.selectedLanguage) suite]) ∧
      (trim s.code ≠ "" → testCases ≠ [] → m.initError = none →
        (handleSubmit envKey problem m s).1.requests = s.requests ++
          [ModelRequest.judge s.selectedLanguage (prepareCode s.code s.selectedLanguage) suite]) := by
  obtain ⟨suite, hsuite, hlen, hget⟩ := allTestCases_spec problem testCases htc
  refine ⟨suite, hlen, hget, ?_, ?_⟩
  · rw [handleSubmit_requests envKey problem m s suite hsuite]
    split_ifs
    · right; rfl
    · left; rfl
  · intro hcode hne hinit
    have hl : suite.length ≠ 0 := by
      rw [hlen]; exact fun h => hne (List.length_eq_zero.mp h)
    rw [handleSubmit_requests envKey problem m s suite hsuite, if_pos ⟨hcode, hl, by rw [hinit]; rfl⟩]


theorem handleSubmit_test_suite_witness :
    (handleSubmit none
      { _id := some "p1", codeSnippets := none, testCases := some ["1 2", "3 4"],
        expectedOutputs := some ["3"] }
      { initError := none, response := .ok (.str "") } { code := "x" }).1.requests =
      [ModelRequest.judge "javascript" "x" [⟨"1 2", "3"⟩, ⟨"3 4", ""⟩]] := by
  obtain ⟨suite, _, hget, -, hreq⟩ := handleSubmit_test_suite none
    { _id := some "p1", codeSnippets := none, testCases := some ["1 2", "3 4"],
      expectedOutputs := some ["3"] }
    { initError := none, response := .ok (.str "") } { code := "x" } ["1 2", "3 4"] rfl
  have hs : suite = [⟨"1 2", "3"⟩, ⟨"3 4", ""⟩] := by
    apply List.ext_getElem?
    intro i
    rw [hget i]
    rcases i with _ | _ | i <;> rfl
  rw [hreq (by decide) (by simp) rfl, hs]
  rfl

theorem jsOr_str (a b : String) : jsOr (.str a) (.str b) = .str (strOr a b) := by
  unfold jsOr strOr truthy
  by_cases h : a = "" <;> simp [h]

/-- The `try` block of `handleSubmit` on a reply that parses to an object,
after the request has been sent. -/
theorem handleSubmitTry_reply (envKey : Option String) (problem : Problem)
    (m : ModelBehaviour) (s : PanelState) (testCases : List String)
    (text : JSVal) (fields : List (String × JSVal))
    (htc : problem.testCases = some testCases) (hne : testCases ≠ [])
    (hinit : m.initError = none) (hresp : m.response = .ok text)
    (hparse : parseGeminiResponse text = .ok (.obj fields)) :
    ∃ sent, handleSubmitTry envKey problem m s =
      (if truthy (lookupField "allPassed" fields) then
        ({ s with
            requests := sent, output := .obj fields,
            toasts := s.toasts ++ [Toast.success "🎉 All test cases passed! Great job!"],
            showOutput := false }, .ok ())
      else if truthy (lookupField "compile_error" fields) then
        ({ s with
            requests := sent, output := .obj fields,
            toasts := s.toasts ++
              [Toast.error "Compilation failed. Check the output for details."] }, .ok ())
      else
        match warningText (.obj fields) with
        | .ok text =>
          ({ s with
              requests := sent, output := .obj fields,
              toasts := s.toasts ++ [Toast.warning text] }, .ok ())
        | .error e =>
          ({ s with requests := sent, output := .obj fields }, .error (.error e))) := by
  obtain ⟨suite, hsuite, hlen, -⟩ := allTestCases_spec problem testCases htc
  have hl : suite.length ≠ 0 := by
    rw [hlen]; exact fun h => hne (List.length_eq_zero.mp h)
  refine ⟨s.requests ++
    [ModelRequest.judge s.selectedLanguage (prepareCode s.code s.selectedLanguage) suite], ?_⟩
  simp only [handleSubmitTry, if_neg (geminiApiKey_ne_empty envKey),
    hsuite, if_neg hl, getGeminiAI_ok envKey m hinit, hresp, hparse, getProp]

theorem warningText_obj (fields : List (String × JSVal)) :
    warningText (.obj fields) =
      (match toDisplayString (lookupField "passedTests" fields) with
       | .error e => .error e
       | .ok passedTests =>
         match toDisplayString (lookupField "totalTests" fields) with
         | .error e => .error e
         | .ok totalTests => .ok (passedTests ++ "/" ++ totalTests ++ " test cases passed.")) := by
  unfold warningText
  simp only [getProp, bind, Except.bind, pure, Except.pure]
  cases toDisplayString (lookupField "passedTests" fields) with
  | error e => rfl
  | ok p => cases toDisplayString (lookupField "totalTests" fields) <;> rfl

/-- Claim C8, amended.  For non-blank code, a non-empty test suite and a model
reply that `parseGeminiResponse` turns into an object `r` (with fields
`fields`), `handleSubmit` ends as follows.  When `r.allPassed` is truthy:
`output` is `r`, the success toast is the one notification shown and the panel
is switched back to the test-case tab.  When `r.allPassed` is falsy and
`r.compile_error` is truthy: `output` is `r` and the error toast about
compilation is the one notification.  Otherwise, when `r.passedTests` and
`r.totalTests` can be converted to strings: `output` is `r` and the one
notification is the warning toast with the text
"<passedTests>/<totalTests> test cases passed."; and when one of the two
conversions throws (the value is, or holds inside an array, an object with an
own `toString` property), no notification is shown and `output` is the
"Submission Failed" error object. -/
theorem handleSubmit_notification (envKey : Option String)
    (problem : Problem) (m : ModelBehaviour) (s : PanelState) (testCases : List String)
    (text : JSVal) (fields : List (String × JSVal))
    (hcode : trim s.code ≠ "") (htc : problem.testCases = some testCases) (hne : testCases ≠ [])
    (hinit : m.initError = none) (hresp : m.response = .ok text)
    (hparse : parseGeminiResponse text = .ok (.obj fields)) :
    (truthy (lookupField "allPassed" fields) = true →
      (handleSubmit envKey problem m s).1.output = .obj fields ∧
      (handleSubmit envKey problem m s).1.toasts =
        s.toasts ++ [Toast.success "🎉 All test cases passed! Great job!"] ∧
      (handleSubmit envKey problem m s).1.showOutput = false) ∧
    (truthy (lookupField "allPassed" fields) = false →
      truthy (lookupField "compile_error" fields) = true →
      (handleSubmit envKey problem m s).1.output = .obj fields ∧
      (handleSubmit envKey problem m s).1.toasts =
        s.toasts ++ [Toast.error "Compilation failed. Check the output for details."] ∧
      (handleSubmit envKey problem m s).1.showOutput = true) ∧
    (truthy (lookupField "allPassed" fields) = false →
      truthy (lookupField "compile_error" fields) = false →
      ∀ passedTests totalTests : String,
      toDisplayString (lookupField "passedTests" fields) = .ok passedTests →
      toDisplayString (lookupField "totalTests" fields) = .ok totalTests →
      (handleSubmit envKey problem m s).1.output = .obj fields ∧
      (handleSubmit envKey problem m s).1.toasts =
        s.toasts ++ [Toast.warning (passedTests ++ "/" ++ totalTests ++ " test cases passed.")] ∧
      (handleSubmit envKey problem m s).1.showOutput = true) ∧
    (truthy (lookupField "allPassed" fields) = false →
      truthy (lookupField "compile_error" fields) = false →
      ∀ e : JSError,
      (toDisplayString (lookupField "passedTests" fields) = .error e ∨
        ((∃ passedTests, toDisplayString (lookupField "passedTests" fields) = .ok passedTests) ∧
          toDisplayString (lookupField "totalTests" fields) = .error e)) →
      (handleSubmit envKey problem m s).1.output =
        .obj [("error", .str "Submission Failed"),
              ("message", .str (strOr e.message "Failed to submit code via Gemini"))] ∧
      (handleSubmit envKey problem m s).1.toasts = s.toasts ∧
      (handleSubmit envKey problem m s).1.showOutput = true) := by
  obtain ⟨sent, htry⟩ := handleSubmitTry_reply envKey problem m
    { s with isSubmitting := true, showOutput := true, output := .null } testCases text fields
    htc hne hinit hresp hparse
  refine ⟨?_, ?_, ?_, ?_⟩
  · intro hap
    rw [if_pos hap] at htry
    rw [handleSubmit_of_ok envKey problem m s _ hcode htry]
    exact ⟨rfl, rfl, rfl⟩
  · intro hap hce
    rw [if_neg (by simp [hap]), if_pos hce] at htry
    rw [handleSubmit_of_ok envKey problem m s _ hcode htry]
    exact ⟨rfl, rfl, rfl⟩
  · intro hap hce p t hp ht
    rw [if_neg (by simp [hap]), if_neg (by simp [hce]), warningText_obj, hp, ht] at htry
    rw [handleSubmit_of_ok envKey problem m s _ hcode htry]
    exact ⟨rfl, rfl, rfl⟩
  · intro hap hce e he
    have hw : warningText (.obj fields) = .error e := by
      rw [warningText_obj]
      rcases he with he | ⟨⟨p, hp⟩, ht⟩
      · rw [he]
      · rw [hp, ht]
    rw [if_neg (by simp [hap]), if_neg (by simp [hce]), hw] at htry
    rw [handleSubmit_of_error envKey problem m s _ _ hcode htry]
    simp [Thrown.message, jsOr_str]

theorem handleSubmit_notification_witness :
    (handleSubmit none
      { _id := some "p1", codeSnippets := none, testCases := some ["1 2"],
        expectedOutputs := some ["3"] }
      { initError := none,
        response := .ok (.str "\x7b\"allPassed\": false, \"passedTests\": 2, \"totalTests\": 3\x7d") }
      { code := "x" }).1.toasts = [Toast.warning "2/3 test cases passed."] :=
  ((handleSubmit_notification none
    { _id := some "p1", codeSnippets := none, testCases := some ["1 2"],
      expectedOutputs := some ["3"] }
    { initError := none,
      response := .ok (.str "\x7b\"allPassed\": false, \"passedTests\": 2, \"totalTests\": 3\x7d") }
    { code := "x" } ["1 2"]
    (.str "\x7b\"allPassed\": false, \"passedTests\": 2, \"totalTests\": 3\x7d")
    [("allPassed", .bool false), ("passedTests", .num 2), ("totalTests", .num 3)]
    (by decide) rfl (by simp) rfl rfl rfl).2.2.1 rfl rfl "2" "3" rfl rfl).2.1

/-- Claim C8 fails as stated: for a reply that parses to an object whose
`passedTests` is an object with an own `toString` property, the template literal
of the warning toast throws, the `catch` block replaces `output` by the
"Submission Failed" object, and no notification is shown. -/
theorem handleSubmit_unprintable_count :
    parseGeminiResponse (.str
      "\x7b\"allPassed\": false, \"passedTests\": \x7b\"toString\": 1\x7d, \"totalTests\": 3\x7d") =
      .ok (.obj [("allPassed", .bool false), ("passedTests", .obj [("toString", .num 1)]),
        ("totalTests", .num 3)]) ∧
    (handleSubmit none
      { _id := some "p1", codeSnippets := none, testCases := some ["1 2"],
        expectedOutputs := some ["3"] }
      { initError := none,
        response := .ok (.str
          "\x7b\"allPassed\": false, \"passedTests\": \x7b\"toString\": 1\x7d, \"totalTests\": 3\x7d") }
      { code := "x" }).1.toasts = [] ∧
    (handleSubmit none
      { _id := some "p1", codeSnippets := none, testCases := some ["1 2"],
        expectedOutputs := some ["3"] }
      { initError := none,
        response := .ok (.str
          "\x7b\"allPassed\": false, \"passedTests\": \x7b\"toString\": 1\x7d, \"totalTests\": 3\x7d") }
      { code := "x" }).1.output =
      .obj [("error", .str "Submission Failed"),
            ("message", .str "Cannot convert object to primitive value")] :=
  ⟨rfl, rfl, rfl⟩


theorem handleRunCodeTry_isSubmitting (envKey : Option String) (problem : Problem)
    (m : ModelBehaviour) (s : PanelState) :
    (handleRunCodeTry envKey problem m s).1.isSubmitting = s.isSubmitting := by
  simp only [handleRunCodeTry]
  repeat' split
  all_goals rfl

theorem handleSubmitTry_isRunning (envKey : Option String) (problem : Problem)
    (m : ModelBehaviour) (s : PanelState) :
    (handleSubmitTry envKey problem m s).1.isRunning = s.isRunning := by
  simp only [handleSubmitTry]
  repeat' split
  all_goals rfl

/-- What the `try` block of `handleRunCode` throws is an `Error` raised by the
component itself, or the value with which the model call rejects. -/
theorem handleRunCodeTry_thrown (envKey : Option String) (problem : Problem)
    (m : ModelBehaviour) (s : PanelState) (thrown : Thrown) :
    (handleRunCodeTry envKey problem m s).2 = .error thrown →
    (∃ e, thrown = .error e) ∨ m.response = .error thrown := by
  simp only [handleRunCodeTry]
  repeat' split
  all_goals intro h
  all_goals first
    | (cases h; done)
    | (cases h; exact Or.inl ⟨_, rfl⟩)
    | (cases h; right; assumption)

/-- What the `try` block of `handleSubmit` throws is an `Error` raised by the
component itself, or the value with which the model call rejects. -/
theorem handleSubmitTry_thrown (envKey : Option String) (problem : Problem)
    (m : ModelBehaviour) (s : PanelState) (thrown : Thrown) :
    (handleSubmitTry envKey problem m s).2 = .error thrown →
    (∃ e, thrown = .error e) ∨ m.response = .error thrown := by
  simp only [handleSubmitTry]
  repeat' split
  all_goals intro h
  all_goals first
    | (cases h; done)
    | (cases h; exact Or.inl ⟨_, rfl⟩)
    | (cases h; right; assumption)

/-- The read `error.message` succeeds on every thrown value but `undefined`
and `null`. -/
theorem Thrown.message_ok (thrown : Thrown) (h₁ : thrown ≠ .value .undefined)
    (h₂ : thrown ≠ .value .null) : ∃ message, thrown.message = .ok message := by
  cases thrown with
  | error e => exact ⟨_, rfl⟩
  | value v =>
    cases v with
    | undefined => exact absurd rfl h₁
    | null => exact absurd rfl h₂
    | _ => exact ⟨_, rfl⟩

theorem handleRunCode_no_escape (envKey : Option String) (problem : Problem)
    (m : ModelBehaviour) (s : PanelState)
    (h₁ : m.response ≠ .error (.value .undefined)) (h₂ : m.response ≠ .error (.value .null)) :
    (handleRunCode envKey problem m s).2 = none := by
  by_cases hcode : trim s.code = ""
  · simp [handleRunCode, hcode]
  · rcases hr : handleRunCodeTry envKey problem m
      { s with isRunning := true, showOutput := true, output := .null } with ⟨r1, thrown | u⟩
    · have ht := handleRunCodeTry_thrown envKey problem m _ thrown (by rw [hr])
      obtain ⟨message, hm⟩ : ∃ message, thrown.message = .ok message := by
        rcases ht with ⟨e, rfl⟩ | ht
        · exact ⟨_, rfl⟩
        · exact Thrown.message_ok thrown (fun h => h₁ (by rw [ht, h]))
            (fun h => h₂ (by rw [ht, h]))
      rw [handleRunCode_of_error envKey problem m s r1 thrown hcode hr, hm]
    · rw [handleRunCode_of_ok envKey problem m s r1 hcode hr]

theorem handleSubmit_no_escape (envKey : Option String) (problem : Problem)
    (m : ModelBehaviour) (s : PanelState)
    (h₁ : m.response ≠ .error (.value .undefined)) (h₂ : m.response ≠ .error (.value .null)) :
    (handleSubmit envKey problem m s).2 = none := by
  by_cases hcode : trim s.code = ""
  · simp [handleSubmit, hcode]
  · rcases hr : handleSubmitTry envKey problem m
      { s with isSubmitting := true, showOutput := true, output := .null } with ⟨r1, thrown | u⟩
    · have ht := handleSubmitTry_thrown envKey problem m _ thrown (by rw [hr])
      obtain ⟨message, hm⟩ : ∃ message, thrown.message = .ok message := by
        rcases ht with ⟨e, rfl⟩ | ht
        · exact ⟨_, rfl⟩
        · exact Thrown.message_ok thrown (fun h => h₁ (by rw [ht, h]))
            (fun h => h₂ (by rw [ht, h]))
      rw [handleSubmit_of_error envKey problem m s r1 thrown hcode hr, hm]
    · rw [handleSubmit_of_ok envKey problem m s r1 hcode hr]

theorem handleRunCode_flags (envKey : Option String) (problem : Problem) (m : ModelBehaviour)
    (s : PanelState) :
    (handleRunCode envKey problem m s).1.isSubmitting = s.isSubmitting ∧
    (handleRunCode envKey problem m s).1.isRunning =
      (if trim s.code = "" then s.isRunning else false) := by
  by_cases hcode : trim s.code = ""
  · simp [handleRunCode, hcode]
  · obtain ⟨out, escaped, h⟩ := handleRunCode_result envKey problem m s hcode
    rw [h, if_neg hcode]
    exact ⟨handleRunCodeTry_isSubmitting envKey problem m _, rfl⟩

theorem handleSubmit_flags (envKey : Option String) (problem : Problem)
    (m : ModelBehaviour) (s : PanelState) :
    (handleSubmit envKey problem m s).1.isRunning = s.isRunning ∧
    (handleSubmit envKey problem m s).1.isSubmitting =
      (if trim s.code = "" then s.isSubmitting else false) := by
  by_cases hcode : trim s.code = ""
  · simp [handleSubmit, hcode]
  · obtain ⟨out, escaped, h⟩ := handleSubmit_result envKey problem m s hcode
    rw [h, if_neg hcode]
    exact ⟨handleSubmitTry_isRunning envKey problem m _, rfl⟩

/-- Claim C10, amended.  For every editor state, every problem and every
behaviour of the model call that returns a reply (also one that parses to
`null`) or throws a value other than `undefined` and `null`, no exception
escapes `handleRunCode` or `handleSubmit`.  Each handler leaves the busy flag of
the other one as it was and, on non-blank code, ends with its own flag false (on
blank code it leaves it as it was); so when the handler is started with both
flags false, `isRunning` and `isSubmitting` are both false when it has finished
and the buttons are enabled again.  When the model call throws a value whose
`message` can be read, `output` is the error object "Execution Failed" (run) or
"Submission Failed" (submit), with that message or the fallback text. -/
theorem handlers_settle (envKey : Option String) (problem : Problem)
    (m : ModelBehaviour) (s : PanelState) :
    (m.response ≠ .error (.value .undefined) → m.response ≠ .error (.value .null) →
      (handleRunCode envKey problem m s).2 = none ∧
      (handleSubmit envKey problem m s).2 = none) ∧
    ((handleRunCode envKey problem m s).1.isSubmitting = s.isSubmitting ∧
      (handleRunCode envKey problem m s).1.isRunning =
        (if trim s.code = "" then s.isRunning else false)) ∧
    ((handleSubmit envKey problem m s).1.isRunning = s.isRunning ∧
      (handleSubmit envKey problem m s).1.isSubmitting =
        (if trim s.code = "" then s.isSubmitting else false)) ∧
    (isLoading s = false →
      isLoading (handleRunCode envKey problem m s).1 = false ∧
      isLoading (handleSubmit envKey problem m s).1 = false) ∧
    (∀ (thrown : Thrown) (message : JSVal), trim s.code ≠ "" → m.initError = none →
      m.response = .error thrown → thrown.message = .ok message →
      (handleRunCode envKey problem m s).1.output =
        .obj [("error", .str "Execution Failed"),
              ("message", jsOr message (.str "Failed to execute code via Gemini"))]) ∧
    (∀ (thrown : Thrown) (message : JSVal) (testCases : List String), trim s.code ≠ "" →
      problem.testCases = some testCases → testCases ≠ [] → m.initError = none →
      m.response = .error thrown → thrown.message = .ok message →
      (handleSubmit envKey problem m s).1.output =
        .obj [("error", .str "Submission Failed"),
              ("message", jsOr message (.str "Failed to submit code via Gemini"))]) := by
  have hr := handleRunCode_flags envKey problem m s
  have hs := handleSubmit_flags envKey problem m s
  refine ⟨fun h₁ h₂ => ⟨handleRunCode_no_escape envKey problem m s h₁ h₂,
    handleSubmit_no_escape envKey problem m s h₁ h₂⟩, hr, hs, ?_, ?_, ?_⟩
  · intro hidle
    have h1 : s.isRunning = false ∧ s.isSubmitting = false := by
      simpa [isLoading] using hidle
    constructor
    · unfold isLoading
      rw [hr.1, hr.2, h1.1, h1.2]
      simp
    · unfold isLoading
      rw [hs.1, hs.2, h1.1, h1.2]
      simp
  · intro thrown message hcode hinit hresp hmsg
    have htry : handleRunCodeTry envKey problem m
        { s with isRunning := true, showOutput := true, output := .null } =
        ({ s with isRunning := true, showOutput := true, output := .null,
                  requests := s.requests ++ [ModelRequest.run s.selectedLanguage
                    (prepareCode s.code s.selectedLanguage)
                    (optOr (problem.testCases.bind (fun l => l.get? 0)) "")] },
          .error thrown) := by
      simp only [handleRunCodeTry, if_neg (geminiApiKey_ne_empty envKey),
        getGeminiAI_ok envKey m hinit, hresp]
    rw [handleRunCode_of_error envKey problem m s _ thrown hcode htry, hmsg]
  · intro thrown message testCases hcode htc hne hinit hresp hmsg
    obtain ⟨suite, hsuite, hlen, -⟩ := allTestCases_spec problem testCases htc
    have hl : suite.length ≠ 0 := by
      rw [hlen]; exact fun h => hne (List.length_eq_zero.mp h)
    have htry : handleSubmitTry envKey problem m
        { s with isSubmitting := true, showOutput := true, output := .null } =
        ({ s with isSubmitting := true, showOutput := true, output := .null,
                  requests := s.requests ++ [ModelRequest.judge s.selectedLanguage
                    (prepareCode s.code s.selectedLanguage) suite] },
          .error thrown) := by
      simp only [handleSubmitTry, if_neg (geminiApiKey_ne_empty envKey), hsuite, if_neg hl,
        getGeminiAI_ok envKey m hinit, hresp]
    rw [handleSubmit_of_error envKey problem m s _ thrown hcode htry, hmsg]

theorem handlers_settle_witness :
    ((handleRunCode none
        { _id := some "p1", codeSnippets := none, testCases := some ["1 2"],
          expectedOutputs := none }
        { initError := none, response := .error (.error ⟨"quota exceeded"⟩) }
        { code := "x" }).2 = none ∧
      (handleSubmit none
        { _id := some "p1", codeSnippets := none, testCases := some ["1 2"],
          expectedOutputs := none }
        { initError := none, response := .error (.error ⟨"quota exceeded"⟩) }
        { code := "x" }).2 = none) ∧
    (isLoading (handleRunCode none
        { _id := some "p1", codeSnippets := none, testCases := some ["1 2"],
          expectedOutputs := none }
        { initError := none, response := .error (.error ⟨"quota exceeded"⟩) }
        { code := "x" }).1 = false ∧
      isLoading (handleSubmit none
        { _id := some "p1", codeSnippets := none, testCases := some ["1 2"],
          expectedOutputs := none }
        { initError := none, response := .error (.error ⟨"quota exceeded"⟩) }
        { code := "x" }).1 = false) ∧
    (handleRunCode none
      { _id := some "p1", codeSnippets := none, testCases := some ["1 2"],
        expectedOutputs := none }
      { initError := none, response := .error (.error ⟨"quota exceeded"⟩) }
      { code := "x" }).1.output =
      .obj [("error", .str "Execution Failed"), ("message", .str "quota exceeded")] ∧
    (handleSubmit none
      { _id := some "p1", codeSnippets := none, testCases := some ["1 2"],
        expectedOutputs := none }
      { initError := none, response := .error (.error ⟨"quota exceeded"⟩) }
      { code := "x" }).1.output =
      .obj [("error", .str "Submission Failed"), ("message", .str "quota exceeded")] := by
  have h := handlers_settle none
    { _id := some "p1", codeSnippets := none, testCases := some ["1 2"],
      expectedOutputs := none }
    { initError := none, response := .error (.error ⟨"quota exceeded"⟩) } { code := "x" }
  exact ⟨h.1 (by simp) (by simp), h.2.2.2.1 rfl,
    h.2.2.2.2.1 (.error ⟨"quota exceeded"⟩) (.str "quota exceeded") (by decide) rfl rfl rfl,
    h.2.2.2.2.2 (.error ⟨"quota exceeded"⟩) (.str "quota exceeded") ["1 2"] (by decide) rfl
      (by simp) rfl rfl rfl⟩

/-- Claim C10 fails as stated, in two ways.  When the model call rejects with
`null`, the read `error.message` in the `catch` block throws and that
`TypeError` escapes `handleRunCode` and `handleSubmit`, with `output` left
`null`.  And a handler clears only its own busy flag: started while
`isSubmitting` is set, `handleRunCode` ends with the buttons still disabled. -/
theorem handlers_escape :
    (handleRunCode none
      { _id := some "p1", codeSnippets := none, testCases := some ["1 2"],
        expectedOutputs := none }
      { initError := none, response := .error (.value .null) } { code := "x" }).2 =
      some (.error ⟨"Cannot read properties of null (reading 'message')"⟩) ∧
    (handleRunCode none
      { _id := some "p1", codeSnippets := none, testCases := some ["1 2"],
        expectedOutputs := none }
      { initError := none, response := .error (.value .null) } { code := "x" }).1.output =
      .null ∧
    (handleSubmit none
      { _id := some "p1", codeSnippets := none, testCases := some ["1 2"],
        expectedOutputs := none }
      { initError := none, response := .error (.value .null) } { code := "x" }).2 =
      some (.error ⟨"Cannot read properties of null (reading 'message')"⟩) ∧
    isLoading (handleRunCode none
      { _id := some "p1", codeSnippets := none, testCases := some ["1 2"],
        expectedOutputs := none }
      { initError := none, response := .ok (.str "\x7b\"success\": true\x7d") }
      { code := "x", isSubmitting := true }).1 = true :=
  ⟨rfl, rfl, rfl, rfl⟩

/-! ## Saved code, language selector and resizing -/

theorem arrayFind_eq_find? {α : Type} (p : α → Bool) (l : List α) :
    arrayFind p l = l.find? p := by
  induction l with
  | nil => rfl
  | cons a as ih =>
    simp only [arrayFind, List.find?]
    cases p a <;> simp [ih]

theorem snippetCode_eq (problem : Problem) (lang : String) :
    snippetCode problem lang =
      (match (problem.codeSnippets.getD []).find? (fun sn => decide (sn.langSlug = lang)) with
       | some sn => sn.code
       | none => "") := by
  unfold snippetCode
  rw [optOr_empty]
  cases problem.codeSnippets with
  | none => rfl
  | some l =>
    simp only [Option.some_bind, arrayFind_eq_find?, Option.getD_some]
    cases l.find? (fun sn => decide (sn.langSlug = lang)) <;> rfl

/-- Claim C5, amended.  For every problem, language `lang` and state of the
saved-code store, after `handleLanguageChange(lang)` the selected language is
`lang` and the editor code follows the rule `codeRule`: the code stored for
`(problem._id, lang)` when it is not empty, otherwise the code of the first
snippet whose `langSlug` is `lang`, otherwise the empty string.  The load effect
applies the same rule for the selected language when `problem._id` is present
and not empty, and leaves the editor code unchanged otherwise. -/
theorem handleLanguageChange_code (getUserCode : Option String → String → Option String)
    (problem : Problem) (lang : String) (s : PanelState) :
    (handleLanguageChange getUserCode problem lang s).selectedLanguage = lang ∧
    (handleLanguageChange getUserCode problem lang s).code = codeRule getUserCode problem lang ∧
    (loadEffect getUserCode problem s).code =
      (if problem._id = none ∨ problem._id = some "" then s.code
       else codeRule getUserCode problem s.selectedLanguage) := by
  refine ⟨?_, ?_, ?_⟩
  · unfold handleLanguageChange
    cases getUserCode problem._id lang with
    | none => rfl
    | some c => simp only []; split_ifs <;> rfl
  · unfold handleLanguageChange codeRule
    rw [← snippetCode_eq]
    cases getUserCode problem._id lang with
    | none => rfl
    | some c => simp only []; split_ifs <;> rfl
  · unfold loadEffect codeRule
    rw [← snippetCode_eq, optOr_empty]
    cases hid : problem._id with
    | none => simp
    | some i =>
      by_cases hi : i = ""
      · simp [hi]
      · simp only [Option.getD_some, hi, if_false, reduceCtorEq, Option.some.injEq, or_self]
        cases getUserCode (some i) s.selectedLanguage with
        | none => rfl
        | some c => simp only []; split_ifs <;> rfl

/-- Claim C5 fails as stated: for a problem without `_id` the load effect
returns at its guard and leaves the code empty, although the rule (which
`handleLanguageChange` does apply) gives the code of the snippet. -/
theorem loadEffect_skips_without_id :
    (loadEffect (fun _ _ => none)
      { _id := none, codeSnippets := some [⟨"C++", "cpp", "int x;"⟩], testCases := none,
        expectedOutputs := none }
      { selectedLanguage := "cpp", code := "" }).code = "" ∧
    codeRule (fun _ _ => none)
      { _id := none, codeSnippets := some [⟨"C++", "cpp", "int x;"⟩], testCases := none,
        expectedOutputs := none } "cpp" = "int x;" ∧
    (handleLanguageChange (fun _ _ => none)
      { _id := none, codeSnippets := some [⟨"C++", "cpp", "int x;"⟩], testCases := none,
        expectedOutputs := none } "cpp"
      { selectedLanguage := "javascript", code := "" }).code = "int x;" := by
  refine ⟨by decide, by decide, by decide⟩

theorem monacoLang_eq (slug : String) :
    (if slug = "cpp" then "cpp" else if slug = "python3" then "python" else slug) =
      (if slug = "python3" then "python" else slug) := by
  by_cases h : slug = "cpp"
  · subst h; decide
  · rw [if_neg h]

/-- Claim C6.  The languages offered by the selector are exactly the entries
of `problem.codeSnippets` whose `langSlug` is one of cpp, javascript, python3,
java, in their original order (none when `codeSnippets` is absent); the editor
language of an entry is "python" for python3 and the `langSlug` itself
otherwise; `currentLanguage` is the editor language of the first offered entry
that matches the selected language, or "javascript" when none matches. -/
theorem availableLanguages_spec (problem : Problem) (s : PanelState) :
    availableLanguages problem =
      ((problem.codeSnippets.getD []).filter
        (fun sn => decide (sn.langSlug ∈ ["cpp", "javascript", "python3", "java"]))).map
        (fun sn => LanguageOption.mk sn.langSlug sn.lang
          (if sn.langSlug = "python3" then "python" else sn.langSlug)) ∧
    currentLanguage problem s =
      (match (availableLanguages problem).find? (fun l => decide (l.value = s.selectedLanguage)) with
       | some l => l.monacoLang
       | none => "javascript") := by
  have h1 : availableLanguages problem =
      ((problem.codeSnippets.getD []).filter
        (fun sn => decide (sn.langSlug ∈ ["cpp", "javascript", "python3", "java"]))).map
        (fun sn => LanguageOption.mk sn.langSlug sn.lang
          (if sn.langSlug = "python3" then "python" else sn.langSlug)) := by
    unfold availableLanguages
    cases problem.codeSnippets with
    | none => rfl
    | some l =>
      simp only [Option.getD_some, monacoLang_eq]
      congr 1
      apply List.filter_congr
      intro sn _
      simp [allowedLanguages]
  refine ⟨h1, ?_⟩
  unfold currentLanguage
  rw [arrayFind_eq_find?]
  cases hf : (availableLanguages problem).find? (fun l => decide (l.value = s.selectedLanguage)) with
  | none => rfl
  | some l =>
    have hm : l ∈ availableLanguages problem := List.mem_of_find?_eq_some hf
    rw [h1, List.mem_map] at hm
    obtain ⟨sn, hsn, rfl⟩ := hm
    rw [List.mem_filter] at hsn
    have hal := hsn.2
    simp only [List.mem_cons, List.mem_singleton, List.not_mem_nil, or_false,
      decide_eq_true_eq] at hal
    simp only [Option.map_some', optOr, strOr]
    rcases hal with h | h | h | h <;> rw [h] <;> decide

/-- Claim C7.  A mouse move handled while dragging, with container height `H`,
bottom edge `b` and pointer position `y`, sets the height of the test-case panel
to `max(100, min(0.6*H, b - y))`, which is at least 100 and, when `0.6*H` is at
least 100, at most `0.6*H`; a mouse move handled while not dragging leaves the
height unchanged.  (Numbers are rationals here.) -/
theorem handleMouseMove_clamp (containerRect : Rect) (clientY : ℚ) (s : PanelState) :
    (handleMouseMove (some containerRect) clientY s).testCaseHeight =
      (if s.isDragging then
        max 100 (min (0.6 * containerRect.height) (containerRect.bottom - clientY))
       else s.testCaseHeight) ∧
    (100 : ℚ) ≤ max 100 (min (0.6 * containerRect.height) (containerRect.bottom - clientY)) ∧
    ((100 : ℚ) ≤ 0.6 * containerRect.height →
      max 100 (min (0.6 * containerRect.height) (containerRect.bottom - clientY)) ≤
        0.6 * containerRect.height) ∧
    (s.isDragging = false → ∀ container, handleMouseMove container clientY s = s) := by
  refine ⟨?_, le_max_left _ _, fun h => max_le h (min_le_left _ _), ?_⟩
  · unfold handleMouseMove
    cases hd : s.isDragging
    · simp
    · simp [mul_comm]
  · intro hd container
    unfold handleMouseMove
    simp [hd]


theorem handleMouseMove_clamp_witness :
    (handleMouseMove (some ⟨600, 500⟩) 450 { isDragging := true }).testCaseHeight = 150 ∧
    (100 : ℚ) ≤ 0.6 * 500 ∧
    max (100 : ℚ) (min (0.6 * 500) (600 - 450)) ≤ 0.6 * 500 := by
  have h := handleMouseMove_clamp ⟨600, 500⟩ 450 { isDragging := true }
  refine ⟨?_, by norm_num, h.2.2.1 (by norm_num)⟩
  rw [h.1]
  norm_num

/-! ## `prepareCode`, missing key and blank code -/

theorem includesChars_of_isPrefixOf (sub l : List Char) (h : sub.isPrefixOf l = true) :
    includesChars sub l = true := by
  cases l with
  | nil => simpa [includesChars] using h
  | cons c cs => simp [includesChars, h]

theorem includesChars_append_right (sub x y : List Char) (h : includesChars sub y = true) :
    includesChars sub (x ++ y) = true := by
  induction x with
  | nil => simpa using h
  | cons c cs ih => simp [includesChars, ih]

theorem isPrefixOf_append_right (sub x y : List Char) (h : sub.isPrefixOf x = true) :
    sub.isPrefixOf (x ++ y) = true := by
  obtain ⟨t, ht⟩ := eq_append_of_isPrefixOf sub x h
  rw [ht, List.append_assoc]
  exact isPrefixOf_append_self _ _

theorem includesChars_append_left (sub x y : List Char) (h : includesChars sub x = true) :
    includesChars sub (x ++ y) = true := by
  induction x with
  | nil =>
    apply includesChars_of_isPrefixOf
    have h' : sub.isPrefixOf [] = true := by simpa [includesChars] using h
    simpa using isPrefixOf_append_right sub [] y h'
  | cons c cs ih =>
    simp only [includesChars, Bool.or_eq_true] at h
    simp only [List.cons_append, includesChars, Bool.or_eq_true]
    rcases h with h | h
    · left; exact isPrefixOf_append_right sub (c :: cs) y h
    · right; exact ih h

theorem includes_append_left (a b sub : String) (h : includes a sub = true) :
    includes (a ++ b) sub = true := by
  unfold includes at *
  rw [String.data_append]
  exact includesChars_append_left _ _ _ h

theorem includes_append_right (a b sub : String) (h : includes b sub = true) :
    includes (a ++ b) sub = true := by
  unfold includes at *
  rw [String.data_append]
  exact includesChars_append_right _ _ _ h

theorem intercalate_go_head (s : String) (as : List String) (acc : String) :
    ∃ t, String.intercalate.go acc s as = acc ++ t := by
  induction as generalizing acc with
  | nil => exact ⟨"", by simp [String.intercalate.go]⟩
  | cons a as ih =>
    obtain ⟨t, ht⟩ := ih (acc ++ s ++ a)
    refine ⟨s ++ a ++ t, ?_⟩
    show String.intercalate.go (acc ++ s ++ a) s as = acc ++ (s ++ a ++ t)
    rw [ht]
    simp only [String.append_assoc]

theorem intercalate_go_last (s : String) (pre : List String) (z acc : String) :
    ∃ t, String.intercalate.go acc s (pre ++ [z]) = t ++ z := by
  induction pre generalizing acc with
  | nil => exact ⟨acc ++ s, by simp [String.intercalate.go]⟩
  | cons a as ih =>
    obtain ⟨t, ht⟩ := ih (acc ++ s ++ a)
    exact ⟨t, by simpa [String.intercalate.go] using ht⟩

theorem intercalate_head (s a : String) (as : List String) :
    ∃ t, s.intercalate (a :: as) = a ++ t :=
  intercalate_go_head s as a

theorem intercalate_last (s : String) (pre : List String) (z : String) :
    ∃ t, s.intercalate (pre ++ [z]) = t ++ z := by
  cases pre with
  | nil => exact ⟨"", by simp [String.intercalate, String.intercalate.go]⟩
  | cons a as => exact intercalate_go_last s as z a

/-- The result of `prepareCode` for C++ code, as the text put before the code,
the code and the text put after it. -/
theorem prepareCode_cpp (code : String) :
    prepareCode code "cpp" =
      (if includes code "#include <iostream>" = false ∨ includes code "using namespace std" = false
        then "\n".intercalate (headers code) ++ "\n\n" else "") ++ code ++
      (if includes code "int main" = false then "\n" ++ mainFunc else "") := by
  unfold prepareCode headers
  simp only [if_true]
  cases includes code "#include <iostream>" <;> cases includes code "using namespace std" <;>
    cases includes code "int main" <;> simp [String.append_assoc]

theorem prepareCode_other (code language : String) (h : language ≠ "cpp") :
    prepareCode code language = code := by
  unfold prepareCode
  rw [if_neg h]

theorem includes_prepareCode (code sub : String) (h : includes code sub = true) :
    includes (prepareCode code "cpp") sub = true := by
  rw [prepareCode_cpp]
  exact includes_append_left _ _ _ (includes_append_right _ _ _ h)

theorem headers_iostream (code : String) (h : includes code "#include <iostream>" = false) :
    ∃ rest, headers code = "#include <iostream>" :: rest := by
  unfold headers
  rw [h]
  exact ⟨_, rfl⟩

theorem headers_namespace (code : String) (h : includes code "using namespace std" = false) :
    ∃ pre, headers code = pre ++ ["using namespace std;"] := by
  unfold headers
  rw [h]
  exact ⟨_, rfl⟩

theorem includes_prepareCode_iostream (code : String) :
    includes (prepareCode code "cpp") "#include <iostream>" = true := by
  cases h : includes code "#include <iostream>" with
  | true => exact includes_prepareCode code _ h
  | false =>
    rw [prepareCode_cpp, h]
    simp only [true_or, if_true]
    obtain ⟨rest, hr⟩ := headers_iostream code h
    obtain ⟨t, ht⟩ := intercalate_head "\n" "#include <iostream>" rest
    rw [hr, ht]
    simp only [String.append_assoc]
    apply includes_append_left
    unfold includes
    exact includesChars_of_isPrefixOf _ _ (by decide)

theorem includes_prepareCode_namespace (code : String) :
    includes (prepareCode code "cpp") "using namespace std" = true := by
  cases h : includes code "using namespace std" with
  | true => exact includes_prepareCode code _ h
  | false =>
    rw [prepareCode_cpp, h]
    simp only [or_true, if_true]
    obtain ⟨pre, hp⟩ := headers_namespace code h
    obtain ⟨t, ht⟩ := intercalate_last "\n" pre "using namespace std;"
    rw [hp, ht]
    apply includes_append_left
    apply includes_append_left
    apply includes_append_left
    apply includes_append_right
    decide

theorem includes_prepareCode_main (code : String) :
    includes (prepareCode code "cpp") "int main" = true := by
  cases h : includes code "int main" with
  | true => exact includes_prepareCode code _ h
  | false =>
    rw [prepareCode_cpp, h]
    simp only [if_true]
    apply includes_append_right
    decide

/-- Claim C11.  `prepareCode` is idempotent: for every code and language a
second pass returns the result of the first.  In particular, for the language
"cpp" the result always contains "#include <iostream>", "using namespace std"
and "int main", so a second pass adds nothing. -/
theorem prepareCode_idempotent (code language : String) :
    prepareCode (prepareCode code language) language = prepareCode code language ∧
    includes (prepareCode code "cpp") "#include <iostream>" = true ∧
    includes (prepareCode code "cpp") "using namespace std" = true ∧
    includes (prepareCode code "cpp") "int main" = true := by
  refine ⟨?_, includes_prepareCode_iostream code, includes_prepareCode_namespace code,
    includes_prepareCode_main code⟩
  by_cases hl : language = "cpp"
  · subst hl
    rw [prepareCode_cpp (prepareCode code "cpp"), includes_prepareCode_iostream,
      includes_prepareCode_namespace, includes_prepareCode_main]
    simp
  · rw [prepareCode_other _ _ hl, prepareCode_other _ _ hl]

theorem headers_mem (code : String) :
    ∀ h ∈ headers code, h ∈ ["#include <iostream>", "#include <vector>", "#include <string>",
      "#include <algorithm>", "using namespace std;"] := by
  intro h hm
  unfold headers at hm
  simp only [List.mem_append] at hm
  rcases hm with (((hm | hm) | hm) | hm) | hm <;> split_ifs at hm <;> simp_all

theorem headers_ne_nil (code : String)
    (h : includes code "#include <iostream>" = false ∨ includes code "using namespace std" = false) :
    headers code ≠ [] := by
  rcases h with h | h
  · obtain ⟨rest, hr⟩ := headers_iostream code h
    rw [hr]; exact List.cons_ne_nil _ _
  · obtain ⟨pre, hp⟩ := headers_namespace code h
    rw [hp]; simp

theorem prepareCode_length (code : String) :
    (prepareCode code "cpp").length =
      (if includes code "#include <iostream>" = false ∨ includes code "using namespace std" = false
        then ("\n".intercalate (headers code)).length + 2 else 0) + code.length +
      (if includes code "int main" = false then 1 + mainFunc.length else 0) := by
  have h1 : ("\n" : String).length = 1 := by decide
  have h2 : ("\n\n" : String).length = 2 := by decide
  have h0 : ("" : String).length = 0 := by decide
  rw [prepareCode_cpp]
  split_ifs <;> simp only [String.length_append, h0, h1, h2]

/-- Claim C12.  `prepareCode` returns the code unchanged if and only if the
language is not "cpp" or the code already contains all three of
"#include <iostream>", "using namespace std" and "int main".  In every case the
code appears unmodified as a contiguous part of the result: what precedes it is
empty or the added header lines (joined by line breaks and followed by a blank
line), and what follows it is empty or a line break and the added main
function. -/
theorem prepareCode_shape (code language : String) :
    (prepareCode code language = code ↔
      (language ≠ "cpp" ∨
        (includes code "#include <iostream>" = true ∧ includes code "using namespace std" = true ∧
          includes code "int main" = true))) ∧
    ∃ before after : String,
      prepareCode code language = before ++ code ++ after ∧
      (before = "" ∨ ∃ added : List String, added ≠ [] ∧
        (∀ h ∈ added, h ∈ ["#include <iostream>", "#include <vector>", "#include <string>",
          "#include <algorithm>", "using namespace std;"]) ∧
        before = "\n".intercalate added ++ "\n\n") ∧
      (after = "" ∨ after = "\n" ++ mainFunc) := by
  by_cases hl : language = "cpp"
  · subst hl
    constructor
    · constructor
      · intro he
        right
        have hlen := prepareCode_length code
        rw [he] at hlen
        by_contra hc
        have hcases : (includes code "#include <iostream>" = false ∨
            includes code "using namespace std" = false) ∨ includes code "int main" = false := by
          by_contra hn
          simp only [not_or, Bool.not_eq_false] at hn
          exact hc ⟨hn.1.1, hn.1.2, hn.2⟩
        rcases hcases with h | h
        · rw [if_pos h] at hlen
          omega
        · rw [if_pos h] at hlen
          omega
      · rintro (h | ⟨h1, h2, h3⟩)
        · exact absurd rfl h
        · rw [prepareCode_cpp, h1, h2, h3]; simp
    · refine ⟨_, _, prepareCode_cpp code, ?_, ?_⟩
      · split_ifs with hc
        · right; exact ⟨headers code, headers_ne_nil code hc, headers_mem code, rfl⟩
        · left; rfl
      · split_ifs
        · right; rfl
        · left; rfl
  · refine ⟨⟨fun _ => Or.inl hl, fun _ => prepareCode_other _ _ hl⟩, "", "", ?_, Or.inl rfl, Or.inl rfl⟩
    rw [prepareCode_other _ _ hl]; simp

theorem trim_of_white (code : String) (h : ∀ c ∈ code.data, isJSWhite c = true) :
    trim code = "" := by
  unfold trim jsTrim
  have hd : code.data.dropWhile isJSWhite = [] := by
    rw [List.dropWhile_eq_nil_iff]; exact h
  rw [hd]
  rfl

/-- Claim C14.  For code that is empty or consists only of white space,
`handleRunCode` and `handleSubmit` set `output` to the object with `error`
"Please write some code first!", switch the panel to the output tab and return:
nothing else of the state changes, so the model is not called and no busy flag
is set. -/
theorem handlers_blank_code (envKey : Option String) (problem : Problem)
    (m : ModelBehaviour) (s : PanelState) (hblank : ∀ c ∈ s.code.data, isJSWhite c = true) :
    handleRunCode envKey problem m s =
      ({ s with output := .obj [("error", .str "Please write some code first!")],
                showOutput := true }, none) ∧
    handleSubmit envKey problem m s =
      ({ s with output := .obj [("error", .str "Please write some code first!")],
                showOutput := true }, none) ∧
    (handleRunCode envKey problem m s).1.requests = s.requests ∧
    (handleSubmit envKey problem m s).1.requests = s.requests ∧
    (handleRunCode envKey problem m s).1.isRunning = s.isRunning ∧
    (handleSubmit envKey problem m s).1.isSubmitting = s.isSubmitting := by
  have ht := trim_of_white s.code hblank
  have hr : handleRunCode envKey problem m s =
      ({ s with output := .obj [("error", .str "Please write some code first!")],
                showOutput := true }, none) := by
    unfold handleRunCode; rw [if_pos ht]; rfl
  have hs : handleSubmit envKey problem m s =
      ({ s with output := .obj [("error", .str "Please write some code first!")],
                showOutput := true }, none) := by
    unfold handleSubmit; rw [if_pos ht]; rfl
  refine ⟨hr, hs, ?_, ?_, ?_, ?_⟩
  · rw [hr]
  · rw [hs]
  · rw [hr]
  · rw [hs]

theorem handlers_blank_code_witness :
    (handleRunCode none
      { _id := some "p1", codeSnippets := none, testCases := some ["1 2"],
        expectedOutputs := none }
      { initError := none, response := .ok (.str "\x7b\"success\": true\x7d") }
      { code := "  \n\t" }).1.output = .obj [("error", .str "Please write some code first!")] ∧
    (handleSubmit none
      { _id := some "p1", codeSnippets := none, testCases := some ["1 2"],
        expectedOutputs := none }
      { initError := none, response := .ok (.str "\x7b\"success\": true\x7d") }
      { code := "  \n\t" }).1.requests = [] := by
  have h := handlers_blank_code none
    { _id := some "p1", codeSnippets := none, testCases := some ["1 2"],
      expectedOutputs := none }
    { initError := none, response := .ok (.str "\x7b\"success\": true\x7d") }
    { code := "  \n\t" } (by decide)
  exact ⟨by rw [h.1], h.2.2.2.1⟩

/-- Claim C13, evaluated on the code.  With the environment variable absent or
empty the constant `geminiApiKey` is still the non-empty literal of line 9, so
the test `!geminiApiKey` fails: on non-blank code `handleRunCode` and
`handleSubmit` call the model and store what it replies, not the
"Configuration Error" object. -/
theorem missing_key_calls_model :
    geminiApiKey none ≠ "" ∧ geminiApiKey (some "") ≠ "" ∧
    (handleRunCode none
      { _id := some "p1", codeSnippets := none, testCases := some ["1 2"],
        expectedOutputs := none }
      { initError := none, response := .ok (.str "\x7b\"success\": true, \"allPassed\": true\x7d") }
      { code := "x" }).1.requests = [ModelRequest.run "javascript" "x" "1 2"] ∧
    (handleRunCode none
      { _id := some "p1", codeSnippets := none, testCases := some ["1 2"],
        expectedOutputs := none }
      { initError := none, response := .ok (.str "\x7b\"success\": true, \"allPassed\": true\x7d") }
      { code := "x" }).1.output ≠ configurationError ∧
    (handleSubmit (some "")
      { _id := some "p1", codeSnippets := none, testCases := some ["1 2"],
        expectedOutputs := none }
      { initError := none, response := .ok (.str "\x7b\"success\": true, \"allPassed\": true\x7d") }
      { code := "x" }).1.requests = [ModelRequest.judge "javascript" "x" [⟨"1 2", ""⟩]] ∧
    (handleSubmit (some "")
      { _id := some "p1", codeSnippets := none, testCases := some ["1 2"],
        expectedOutputs := none }
      { initError := none, response := .ok (.str "\x7b\"success\": true, \"allPassed\": true\x7d") }
      { code := "x" }).1.output =
        .obj [("success", .bool true), ("allPassed", .bool true)] := by
  refine ⟨by decide, by decide, rfl, ?_, rfl, rfl⟩
  have h : (handleRunCode none
      { _id := some "p1", codeSnippets := none, testCases := some ["1 2"],
        expectedOutputs := none }
      { initError := none, response := .ok (.str "\x7b\"success\": true, \"allPassed\": true\x7d") }
      { code := "x" }).1.output =
      .obj [("allPassed", .bool true),
        ("testResults", .arr [.obj [("testCase", .num 1), ("passed", .bool true),
          ("input", .str "1 2"), ("output", .undefined), ("time", .undefined),
          ("memory", .undefined)]]),
        ("totalTests", .num 1), ("passedTests", .num 1)] := rfl
  rw [h]
  simp [configurationError]

end RightPanel
